import Mathlib

/-!
Formal verification of the Puzzle Correctness Core of this repository.

Part I embeds the balance-puzzle generator (`Tilted-Scales/generate.py`):
each of the three strategies is a pure function of the values drawn from
the random source (shape permutation, coefficients, weights, coin flips),
mirroring the Python line by line.

Part II embeds the price-puzzle validator (`Writing-Equations/validate.py`)
over a JSON-like value type `JVal`.  Python run-time errors (attribute
errors on non-dict values, `TypeError` from undefined arithmetic, `KeyError`)
are modelled by `Option`: a function returns `none` exactly where the Python
code would raise.
-/

namespace Scales

/-- The fixed 3-symbol shape alphabet `SHAPES = ["s", "t", "c"]`. -/
inductive Shape where
  | s | t | c
deriving DecidableEq, Repr

/-- The textual name of a shape symbol as used in templates. -/
def shapeStr : Shape → String
  | .s => "s"
  | .t => "t"
  | .c => "c"

/-- A comparison operator of an easy inequality (`>` or `<`). -/
inductive Op where
  | gt | lt
deriving DecidableEq, Repr

/-- Operator rendering used when the template string is assembled. -/
def opStr : Op → String
  | .gt => ">"
  | .lt => "<"

/-- One side of a scale: a coefficient for each shape symbol plus an
additive weight (the dicts `{"shapes": {...}, "weight": w}`). -/
structure STerm where
  coef : Shape → Int
  weight : Int

/-- The coefficient function denoted by a Python dict literal
`{a.1: a.2, b.1: b.2, c.1: c.2}`; later keys override earlier ones,
missing shapes default to 0 (never looked up by the generator). -/
def mkCoef3 (a b c : Shape × Int) : Shape → Int :=
  fun sh => if sh = c.1 then c.2 else if sh = b.1 then b.2 else if sh = a.1 then a.2 else 0

/-- Coefficient-dict update `shapes[x] = v`. -/
def updC (f : Shape → Int) (x : Shape) (v : Int) : Shape → Int :=
  fun sh => if sh = x then v else f sh

/-- Value of one side of the scale under an assignment of (rational)
weights to the shape symbols. -/
def evalT (w : Shape → ℚ) (t : STerm) : ℚ :=
  (t.coef .s : ℚ) * w .s + (t.coef .t : ℚ) * w .t + (t.coef .c : ℚ) * w .c + (t.weight : ℚ)

/-- Truth of the generated inequality under a weight assignment. -/
def holdsIneq (w : Shape → ℚ) (l r : STerm) (op : Op) : Prop :=
  match op with
  | .gt => evalT w l > evalT w r
  | .lt => evalT w l < evalT w r

/-- Everything an easy strategy returns:
`[equality, inequality_template, inequality, answer]`. -/
structure EasyOut where
  eq_left : STerm
  eq_right : STerm
  tmpl : String
  ineq_left : STerm
  ineq_right : STerm
  op : Op
  answer : List Shape

/-- The answer pair chosen by `easy_puzzle_proportional_equality`
(lines 70-80 of `Tilted-Scales/generate.py`). -/
def propAns (k1 k2 : Int) (op : Op) (X Y : Shape) : Shape × Shape :=
  if k1 < k2 then (if op = Op.lt then (Y, X) else (X, Y))
  else (if op = Op.lt then (X, Y) else (Y, X))

/-- `easy_puzzle_proportional_equality` (lines 40-94), as a function of its
random draws: the shape permutation `X,Y,Z`, the two coefficients
`k1 ≠ k2` in `[1,6]`, the coin flip `addZ` with the shared coefficient
`k3r` in `[1,4]`, and the operator coin flip. -/
def easy_puzzle_proportional_equality (X Y Z : Shape) (k1 k2 : Int)
    (addZ : Bool) (k3r : Int) (op : Op) : EasyOut :=
  let k3 : Int := 0
  let L0 := mkCoef3 (X, k1) (Y, 0) (Z, k3)
  let R0 := mkCoef3 (X, 0) (Y, k2) (Z, k3)
  let L := if addZ then updC L0 Z k3r else L0
  let R := if addZ then updC R0 Z k3r else R0
  let ans := propAns k1 k2 op X Y
  { eq_left := ⟨L, 0⟩
    eq_right := ⟨R, 0⟩
    tmpl := "_" ++ opStr op ++ "_"
    ineq_left := ⟨updC (fun _ => 0) ans.1 1, 0⟩
    ineq_right := ⟨updC (fun _ => 0) ans.2 1, 0⟩
    op := op
    answer := [ans.1, ans.2] }

/-- The answer pair chosen by `easy_puzzle_weighted_equality`
(lines 121-125). -/
def weightedAns (w1 w2 : Int) (op : Op) (X Y : Shape) : Shape × Shape :=
  if w1 < w2 then (if op = Op.gt then (X, Y) else (Y, X))
  else (if op = Op.gt then (Y, X) else (X, Y))

/-- `easy_puzzle_weighted_equality` (lines 98-137), as a function of its
random draws: shapes, the distinct weights `w1 ≠ w2` in `[1,6]`, the
shared coefficient `k1` in `[1,4]`, and the operator coin flip. -/
def easy_puzzle_weighted_equality (X Y Z : Shape) (w1 w2 k1 : Int) (op : Op) : EasyOut :=
  let ans := weightedAns w1 w2 op X Y
  { eq_left := ⟨mkCoef3 (X, k1) (Y, 0) (Z, 0), w1⟩
    eq_right := ⟨mkCoef3 (X, 0) (Y, k1) (Z, 0), w2⟩
    tmpl := "_" ++ opStr op ++ "_"
    ineq_left := ⟨updC (fun _ => 0) ans.1 1, 0⟩
    ineq_right := ⟨updC (fun _ => 0) ans.2 1, 0⟩
    op := op
    answer := [ans.1, ans.2] }

/-- Python `int(q)` on a float/rational: truncation toward zero. -/
def pyTrunc (q : ℚ) : Int :=
  if 0 ≤ q then ⌊q⌋ else -⌊-q⌋

/-- The left equality weight `weights[0]` of the difficult strategy after
the random permutation of `[k1*w, k1*(w+w_offset)]` (lines 151-155). -/
def diffW0 (k1 w woff : Int) (swap : Bool) : Int :=
  if swap then k1 * (w + woff) else k1 * w

/-- The right equality weight `weights[1]` after the permutation. -/
def diffW1 (k1 w woff : Int) (swap : Bool) : Int :=
  if swap then k1 * w else k1 * (w + woff)

/-- `d = (weights[1] - weights[0]) / k1` (line 163, Python float division,
modelled exactly in ℚ). -/
def diffD (k1 w woff : Int) (swap : Bool) : ℚ :=
  ((diffW1 k1 w woff swap - diffW0 k1 w woff swap : Int) : ℚ) / (k1 : ℚ)

/-- `inequality_weight = int(abs(d) - 1)` (line 165). -/
def diffGap (k1 w woff : Int) (swap : Bool) : Int :=
  pyTrunc (|diffD k1 w woff swap| - 1)

/-- Output of the difficult strategy; its inequality dict carries no
`"op"` key, the operator lives only in the template string. -/
structure DiffOut where
  eq_left : STerm
  eq_right : STerm
  tmpl : String
  ineq_left : STerm
  ineq_right : STerm
  answer : List Shape

/-- The answer pair chosen by the difficult strategy (lines 178-182):
`[X,Y]` when `d > 0`, else `[Y,X]`. -/
def diffAns (k1 w woff : Int) (swap : Bool) (X Y : Shape) : Shape × Shape :=
  if 0 < diffD k1 w woff swap then (X, Y) else (Y, X)

/-- `difficult_puzzle_weighted_equality` (lines 143-199), as a function of
its random draws: shapes, `k1` in `[1,3]`, `w` in `[1,4]`, `w_offset` in
`[2,4]`, the permutation flip of the two side weights, the escalation coin
flip, and the escalation weight offset `woff2` in `[1,5]`. -/
def difficult_puzzle_weighted_equality (X Y Z : Shape) (k1 w woff : Int)
    (swap : Bool) (escalate : Bool) (woff2 : Int) : DiffOut :=
  let W0 := diffW0 k1 w woff swap
  let W1 := diffW1 k1 w woff swap
  let iw := diffGap k1 w woff swap
  let ans : Shape × Shape := diffAns k1 w woff swap X Y
  let iL : STerm := ⟨updC (mkCoef3 (X, 0) (Y, 0) (Z, 0)) ans.1 1, 0⟩
  let iR : STerm := ⟨updC (mkCoef3 (X, 0) (Y, 0) (Z, 0)) ans.2 1, iw⟩
  if escalate then
    { eq_left := ⟨mkCoef3 (X, k1) (Y, 0) (Z, 0), W0⟩
      eq_right := ⟨mkCoef3 (X, 0) (Y, k1) (Z, 0), W1⟩
      tmpl := "_+" ++ shapeStr Z ++ "+" ++ toString woff2 ++ ">_+" ++ shapeStr Z ++ "+"
        ++ toString (iw + woff2)
      ineq_left := ⟨updC iL.coef Z 1, iL.weight + woff2⟩
      ineq_right := ⟨updC iR.coef Z 1, iR.weight + woff2⟩
      answer := [ans.1, ans.2] }
  else
    { eq_left := ⟨mkCoef3 (X, k1) (Y, 0) (Z, 0), W0⟩
      eq_right := ⟨mkCoef3 (X, 0) (Y, k1) (Z, 0), W1⟩
      tmpl := "_>_+" ++ toString iw
      ineq_left := iL
      ineq_right := iR
      answer := [ans.1, ans.2] }

end Scales

namespace PriceVal

/- JSON-like values, the data `validate.py` operates on.  Python `bool`
is kept distinct from `int` (`is_int` excludes it); floats do not occur in
the integer-only puzzle data and are not modelled.  Arrays and objects are
mutual inductives so that decidable equality is derivable. -/
mutual

inductive JVal where
  | jnull
  | jbool (b : Bool)
  | jint (n : Int)
  | jstr (s : String)
  | jarr (xs : JArr)
  | jobj (kvs : JObj)
deriving DecidableEq

inductive JArr where
  | nil
  | cons (hd : JVal) (tl : JArr)
deriving DecidableEq

inductive JObj where
  | nil
  | cons (k : String) (v : JVal) (tl : JObj)
deriving DecidableEq

end

def JArr.toList : JArr → List JVal
  | .nil => []
  | .cons x tl => x :: tl.toList

def JArr.ofList : List JVal → JArr
  | [] => .nil
  | x :: tl => .cons x (JArr.ofList tl)

def JObj.toList : JObj → List (String × JVal)
  | .nil => []
  | .cons k v tl => (k, v) :: tl.toList

def JObj.ofList : List (String × JVal) → JObj
  | [] => .nil
  | (k, v) :: tl => .cons k v (JObj.ofList tl)

/-- Array literal. -/
def jarrL (l : List JVal) : JVal := .jarr (JArr.ofList l)

/-- Object literal (keys assumed distinct, as in parsed JSON). -/
def jobjL (l : List (String × JVal)) : JVal := .jobj (JObj.ofList l)

/- Canonical form identifying `True`/`1` and `False`/`0` recursively,
mirroring Python numeric equality between `bool` and `int`. -/
mutual

def pyCanon : JVal → JVal
  | .jbool b => .jint (if b then 1 else 0)
  | .jarr xs => .jarr (pyCanonArr xs)
  | .jobj kvs => .jobj (pyCanonObj kvs)
  | v => v

def pyCanonArr : JArr → JArr
  | .nil => .nil
  | .cons x tl => .cons (pyCanon x) (pyCanonArr tl)

def pyCanonObj : JObj → JObj
  | .nil => .nil
  | .cons k v tl => .cons k (pyCanon v) (pyCanonObj tl)

end

/-- Python `==` on puzzle data: structural equality up to the `bool`/`int`
identification.  (Python dict equality ignores insertion order; parsed
JSON objects compare in stored order here, an approximation that does not
affect the puzzle fields, which hold no dicts in compared positions.) -/
def pyEq (a b : JVal) : Bool := decide (pyCanon a = pyCanon b)

/-- The single-quote character, used when rendering Python reprs. -/
def squot : String := String.singleton (Char.ofNat 39)

/-- Wrap a string in single quotes (Python repr of a simple string). -/
def q (s : String) : String := squot ++ s ++ squot

/- Python `str()` / f-string rendering of a value, and `repr()` used for
elements of containers.  String escaping inside reprs is not modelled
(the puzzle strings contain no quotes). -/
mutual

def pyStr : JVal → String
  | .jnull => "None"
  | .jbool true => "True"
  | .jbool false => "False"
  | .jint n => toString n
  | .jstr s => s
  | .jarr xs => "[" ++ pyReprArr xs ++ "]"
  | .jobj kvs => "\x7b" ++ pyReprObj kvs ++ "\x7d"

def pyRepr : JVal → String
  | .jnull => "None"
  | .jbool true => "True"
  | .jbool false => "False"
  | .jint n => toString n
  | .jstr s => q s
  | .jarr xs => "[" ++ pyReprArr xs ++ "]"
  | .jobj kvs => "\x7b" ++ pyReprObj kvs ++ "\x7d"

def pyReprArr : JArr → String
  | .nil => ""
  | .cons x .nil => pyRepr x
  | .cons x tl => pyRepr x ++ ", " ++ pyReprArr tl

def pyReprObj : JObj → String
  | .nil => ""
  | .cons k v .nil => q k ++ ": " ++ pyRepr v
  | .cons k v tl => q k ++ ": " ++ pyRepr v ++ ", " ++ pyReprObj tl

end

/-- The whitespace characters stripped by Python `str.strip()` (ASCII). -/
def isPySpace (c : Char) : Bool :=
  c = ' ' || c = Char.ofNat 9 || c = Char.ofNat 10 || c = Char.ofNat 13
    || c = Char.ofNat 11 || c = Char.ofNat 12

/-- Python `str.strip()` (ASCII whitespace). -/
def pyStrip (s : String) : String :=
  String.mk (((s.toList.dropWhile isPySpace).reverse.dropWhile isPySpace).reverse)

/-- Python `str.lower()` (ASCII; the puzzle vocabulary is ASCII). -/
def pyLower (s : String) : String :=
  String.mk (s.toList.map Char.toLower)

def listPrefixOf : List Char → List Char → Bool
  | [], _ => true
  | _ :: _, [] => false
  | a :: as, b :: bs => a == b && listPrefixOf as bs

def listSub (needle : List Char) : List Char → Bool
  | [] => needle.isEmpty
  | h :: t => listPrefixOf needle (h :: t) || listSub needle t

/-- Python `needle in hay` on strings (substring containment). -/
def strIn (needle hay : String) : Bool := listSub needle.toList hay.toList

/-- Python `hay.startswith(pre)`. -/
def strStarts (hay pre : String) : Bool := listPrefixOf pre.toList hay.toList

/-- Python `hay.endswith(suf)`. -/
def strEnds (hay suf : String) : Bool := listPrefixOf suf.toList.reverse hay.toList.reverse

/-- Dict lookup; later duplicate keys override earlier ones, as in Python
dict construction. -/
def objLookup (kvs : List (String × JVal)) (k : String) : Option JVal :=
  kvs.foldl (fun acc kv => if kv.1 == k then some kv.2 else acc) none

/-- Python `needle in container`.  `none` models the `TypeError` raised by
non-container right operands or a non-string needle in a string. -/
def pyIn (needle container : JVal) : Option Bool :=
  match container with
  | .jarr xs => some (xs.toList.any (fun x => pyEq x needle))
  | .jstr s =>
    match needle with
    | .jstr t => some (strIn t s)
    | _ => none
  | .jobj kvs => some (kvs.toList.any (fun kv => pyEq (.jstr kv.1) needle))
  | _ => none

/-- Python `v[k]` for a string key: dict lookup; `none` models both
`KeyError` and the `TypeError` of indexing a non-dict with a string. -/
def pyGetItem (v : JVal) (k : String) : Option JVal :=
  match v with
  | .jobj kvs => objLookup kvs.toList k
  | _ => none

/-- Python `v.get(k, dflt)`; `none` models the `AttributeError` of calling
`.get` on a non-dict. -/
def pyGet (v : JVal) (k : String) (dflt : JVal) : Option JVal :=
  match v with
  | .jobj kvs => some ((objLookup kvs.toList k).getD dflt)
  | _ => none

/-- `norm(s) = (s or "").strip()` (line 40): falsy values normalise to the
empty string, strings are stripped, and any other (truthy non-string)
value raises `AttributeError` on `.strip()`. -/
def pyNorm (v : JVal) : Option String :=
  match v with
  | .jstr s => some (pyStrip s)
  | .jnull => some ""
  | .jbool false => some ""
  | .jbool true => none
  | .jint n => if n == 0 then some "" else none
  | .jarr xs => if xs.toList.isEmpty then some "" else none
  | .jobj kvs => if kvs.toList.isEmpty then some "" else none

/-- `norm(obj.get(k, ""))`, the idiom used throughout the validator. -/
def pyNormGet (obj : JVal) (k : String) : Option String := do
  let v ← pyGet obj k (.jstr "")
  pyNorm v

/-- `is_int(x)`: an `int` and not a `bool` (line 38). -/
def isInt : JVal → Bool
  | .jint _ => true
  | _ => false

/-- `is_pos_int(x)` (line 39). -/
def isPosInt : JVal → Bool
  | .jint n => decide (0 < n)
  | _ => false

/-- `is_int(v) and lo <= v <= hi` (the comparison is short-circuited
behind `is_int`, so it never raises). -/
def isIntBetween (v : JVal) (lo hi : Int) : Bool :=
  match v with
  | .jint n => decide (lo ≤ n) && decide (n ≤ hi)
  | _ => false

/-- Digit-run value for `int()` parsing. -/
def digitsVal (ds : List Char) : Option Int :=
  if ds.isEmpty then none
  else if ds.all Char.isDigit then
    some (ds.foldl (fun acc c => acc * 10 + ((c.toNat : Int) - 48)) 0)
  else none

/-- Python `int(v)`: ints pass through, bools become 0/1, strings are
parsed as optionally signed decimal numerals (surrounding whitespace
allowed; exotic forms such as underscores or unicode digits are not
modelled); everything else raises. -/
def pyInt : JVal → Option Int
  | .jint n => some n
  | .jbool b => some (if b then 1 else 0)
  | .jstr s =>
    match (s.toList.dropWhile isPySpace).reverse.dropWhile isPySpace |>.reverse with
    | '+' :: ds => digitsVal ds
    | '-' :: ds => (digitsVal ds).map (fun n => -n)
    | ds => digitsVal ds
  | _ => none

/-- String repetition `s * n` (non-positive counts give `""`). -/
def pyRepeatStr (s : String) (n : Int) : String :=
  String.join (List.replicate n.toNat s)

/-- Python `a * b` on puzzle values: numeric product (bools count as
0/1), string/list repetition; `none` models the `TypeError` of any other
combination. -/
def pyMul (a b : JVal) : Option JVal :=
  match a, b with
  | .jint x, .jint y => some (.jint (x * y))
  | .jint x, .jbool y => some (.jint (x * (if y then 1 else 0)))
  | .jbool x, .jint y => some (.jint ((if x then 1 else 0) * y))
  | .jbool x, .jbool y => some (.jint ((if x then 1 else 0) * (if y then 1 else 0)))
  | .jint x, .jstr s => some (.jstr (pyRepeatStr s x))
  | .jstr s, .jint x => some (.jstr (pyRepeatStr s x))
  | .jbool x, .jstr s => some (.jstr (pyRepeatStr s (if x then 1 else 0)))
  | .jstr s, .jbool x => some (.jstr (pyRepeatStr s (if x then 1 else 0)))
  | .jint x, .jarr xs => some (jarrL (List.flatten (List.replicate x.toNat xs.toList)))
  | .jarr xs, .jint x => some (jarrL (List.flatten (List.replicate x.toNat xs.toList)))
  | .jbool x, .jarr xs => some (.jarr (if x then xs else .nil))
  | .jarr xs, .jbool x => some (.jarr (if x then xs else .nil))
  | _, _ => none

/-- Python `"per " + v` (line 190): defined only when `v` is a string. -/
def pyAddStr (a : String) (b : JVal) : Option String :=
  match b with
  | .jstr t => some (a ++ t)
  | _ => none

/-- Python `len(v)`; `none` models `TypeError` on unsized values. -/
def pyLen : JVal → Option Nat
  | .jarr xs => some xs.toList.length
  | .jstr s => some s.length
  | .jobj kvs => some kvs.toList.length
  | _ => none

/-- Python iteration `for x in v`: arrays yield elements, strings yield
1-character strings, dicts yield their keys; `none` models `TypeError`
on non-iterables. -/
def pyIter : JVal → Option (List JVal)
  | .jarr xs => some xs.toList
  | .jstr s => some (s.toList.map (fun ch => .jstr (String.singleton ch)))
  | .jobj kvs => some (kvs.toList.map (fun kv => .jstr kv.1))
  | _ => none

/-- `require(cond, errs, msg)` (line 34): the error-list segment the call
appends. -/
def require (cond : Bool) (msg : String) : List String :=
  if cond then [] else [msg]

/-- `REQ_ROOT_KEYS` (line 42). -/
def REQ_ROOT_KEYS : List String :=
  ["id", "stem", "table", "graph", "equation_template", "tokens", "answers", "explanation"]

/-- `MODES` (lines 45-50): `x_var ↦ (x_name, x_unit, x_unit_label)`. -/
def MODES : List (String × String × String × String) :=
  [("w", "weight", "kg", "kg"), ("v", "volume", "L", "L"), ("n", "items", "pcs", "pc")]

/-- Lookup of a mode by its `x_var` key. -/
def modeOf (xv : String) : Option (String × String × String) :=
  (MODES.find? (fun m => m.1 == xv)).map (fun m => m.2)

/-- Section 1 of `validate_item` (lines 55-57): one `missing key` message
per absent root field, in `REQ_ROOT_KEYS` order.  `none` models the
`TypeError` of `k in item` on a non-container item. -/
def rootErrs (item : JVal) : Option (List String) :=
  REQ_ROOT_KEYS.foldlM
    (fun errs k => (pyIn (.jstr k) item).map (fun b => errs ++ require b ("missing key: " ++ k)))
    []

/-- The context values extracted in lines 62-71. -/
structure Ctx where
  stem : JVal
  ctx : JVal
  y_var : String
  y_name : String
  y_unit : String
  x_var : String
  x_name : String
  x_unit : String
  x_ulab : String
  item_nm : String
  slope_m : JVal

/-- Lines 62-71: `item["stem"]`, `stem.get("context", {})` and the normed
context fields (`slope_m` is taken raw with default `None`). -/
def extractCtx (item : JVal) : Option Ctx := do
  let stem ← pyGetItem item "stem"
  let ctx ← pyGet stem "context" (jobjL [])
  let y_var ← pyNormGet ctx "y_var"
  let y_name ← pyNormGet ctx "y_name"
  let y_unit ← pyNormGet ctx "y_unit"
  let x_var ← pyNormGet ctx "x_var"
  let x_name ← pyNormGet ctx "x_name"
  let x_unit ← pyNormGet ctx "x_unit"
  let x_ulab ← pyNormGet ctx "x_unit_label"
  let item_nm ← pyNormGet ctx "item_name"
  let slope_m ← pyGet ctx "slope_m" .jnull
  pure ⟨stem, ctx, y_var, y_name, y_unit, x_var, x_name, x_unit, x_ulab, item_nm, slope_m⟩

/-- Section 2 of `validate_item` (lines 73-90): context and prompt
checks. -/
def contextErrs (c : Ctx) : Option (List String) := do
  let e1 := require (c.y_var == "p") ("y_var must be " ++ q "p")
  let e2 := require (pyLower c.y_name == "price") ("y_name must be " ++ q "price")
  let e3 := require (c.y_unit == "$") ("y_unit must be " ++ q "$")
  let e4 := require ((MODES.map (fun m => m.1)).contains c.x_var)
    ("x_var must be one of [" ++ q "w" ++ ", " ++ q "v" ++ ", " ++ q "n" ++ "]")
  let e5 :=
    match modeOf c.x_var with
    | some mode =>
      require (pyLower c.x_name == mode.1) ("x_name must be " ++ q mode.1)
        ++ require (c.x_unit == mode.2.1) ("x_unit must be " ++ q mode.2.1)
        ++ require (c.x_ulab == mode.2.2) ("x_unit_label must be " ++ q mode.2.2)
    | none => []
  let e6 := require (!(c.item_nm == "")) "item_name empty"
  let e7 := require (isIntBetween c.slope_m 1 20) "slope_m must be int in [1..20]"
  let pt ← pyNormGet c.stem "prompt_text"
  let e8 := require (strIn "p" pt || strIn "price" (pyLower pt)) "prompt must reference price/p"
  let e9 := require (strIn c.x_var pt || strIn c.x_name (pyLower pt))
    "prompt must reference x_var/x_name"
  let e10 := require (strIn "$" pt) ("prompt should mention currency " ++ q "$")
  let e11 := require (strIn (pyLower c.item_nm) (pyLower pt)) "prompt should mention item_name"
  pure (e1 ++ e2 ++ e3 ++ e4 ++ e5 ++ e6 ++ e7 ++ e8 ++ e9 ++ e10 ++ e11)

/-- Section 3 of `validate_item` (lines 92-110): table arithmetic and
display checks. -/
def tableErrs (c : Ctx) (item : JVal) : Option (List String) := do
  let table ← pyGetItem item "table"
  let up ← pyGet table "unit_price" (jobjL [])
  let upVal ← pyGet up "value" .jnull
  let upDisp ← (do let v ← pyGet up "display" (.jstr ""); pyNorm v)
  let amt ← pyGet table "amount" (jobjL [])
  let amtVal ← pyGet amt "value" .jnull
  let amtDisp ← (do let v ← pyGet amt "display" (.jstr ""); pyNorm v)
  let tot ← pyGet table "total" (jobjL [])
  let totVal ← pyGet tot "value" .jnull
  let totDisp ← (do let v ← pyGet tot "display" (.jstr ""); pyNorm v)
  let e1 := require (isPosInt upVal && pyEq upVal c.slope_m) "unit_price.value must equal slope_m"
  let e2 := require
    (strStarts upDisp "$" && strIn ("/" ++ c.x_ulab) upDisp && strIn (pyStr c.slope_m) upDisp)
    ("unit_price.display must include " ++ q "$" ++ ", slope_m, and " ++ q "/\x7bx_unit_label\x7d")
  let e3 := require (isPosInt amtVal && isIntBetween amtVal 1 10) "amount.value must be 1..10"
  let e4 := require (strEnds amtDisp (" " ++ c.x_unit) && strIn (pyStr amtVal) amtDisp)
    ("amount.display must be " ++ q "<amount> \x7bx_unit\x7d")
  let c5 ← if isPosInt totVal
    then (pyMul c.slope_m amtVal).map (fun pr => pyEq totVal pr)
    else pure false
  let e5 := require c5 "total.value must equal slope_m * amount.value"
  let e6 := require (strStarts totDisp "$" && strIn (pyStr totVal) totDisp)
    ("total.display must start with " ++ q "$" ++ " and include total value")
  pure (e1 ++ e2 ++ e3 ++ e4 ++ e5 ++ e6)

/-- `inc_pos` (lines 125-126) after the first element: every element is a
positive int exceeding its predecessor. -/
def incPosGo : List JVal → Int → Bool
  | [], _ => true
  | v :: rest, p =>
    match v with
    | .jint n => decide (0 < n) && decide (p < n) && incPosGo rest n
    | _ => false

/-- `inc_pos(seq)` (lines 125-126). -/
def incPos : List JVal → Bool
  | [] => true
  | v :: rest =>
    match v with
    | .jint n => decide (0 < n) && incPosGo rest n
    | _ => false

/-- `pt_ok(p)` (line 136): a 2-element integer list on `p = m·x`; `none`
models the `TypeError` when the product `slope_m * p[0]` is undefined. -/
def ptOk (slope : JVal) (p : JVal) : Option Bool :=
  match p with
  | .jarr (.cons a (.cons b .nil)) =>
    if isInt a && isInt b then (pyMul slope a).map (fun pr => pyEq b pr)
    else pure false
  | _ => some false

/-- Section 4 of `validate_item` (lines 112-137): graph checks. -/
def graphErrs (c : Ctx) (item : JVal) : Option (List String) := do
  let graph ← pyGetItem item "graph"
  let xaxis ← pyGet graph "x_axis" (jobjL [])
  let yaxis ← pyGet graph "y_axis" (jobjL [])
  let xticks ← pyGet xaxis "ticks" (jarrL [])
  let yticks ← pyGet yaxis "ticks" (jarrL [])
  let xlabel ← (do let v ← pyGet xaxis "label" (.jstr ""); pyNorm v)
  let e1 := require (pyLower xlabel == pyLower (c.x_name ++ " (" ++ c.x_unit ++ ")"))
    ("x_axis.label must match " ++ q "\x7bx_name\x7d (\x7bx_unit\x7d)")
  let ylabel ← (do let v ← pyGet yaxis "label" (.jstr ""); pyNorm v)
  let e2 := require (pyLower ylabel == "price ($)") ("y_axis.label must be " ++ q "price ($)")
  let e3 := require ((match xticks with | .jarr xs => xs.toList.length == 5 | _ => false))
    "x_ticks must be length 5"
  let e4 := require ((match yticks with | .jarr ys => ys.toList.length == 5 | _ => false))
    "y_ticks must be length 5"
  let lx ← pyLen xticks
  let epair ←
    if lx == 5 then do
      let ly ← pyLen yticks
      if ly == 5 then do
        let xsl ← pyIter xticks
        let ysl ← pyIter yticks
        let e5 := require (incPos xsl) "x_ticks must be positive increasing integers"
        let e6 := require (incPos ysl) "y_ticks must be positive increasing integers"
        let ez ← (xsl.zip ysl).foldlM
          (fun errs xy => (pyMul c.slope_m xy.1).map
            (fun pr => errs ++ require (pyEq xy.2 pr) "y_ticks must equal slope_m * x_ticks"))
          []
        pure (e5 ++ e6 ++ ez)
      else pure []
    else pure []
  let lp ← pyGet graph "line_points" (jarrL [])
  let e7 := require ((match lp with | .jarr ps => ps.toList.length == 2 | _ => false))
    "line_points must have exactly 2 points"
  let llp ← pyLen lp
  let e8 ←
    if llp == 2 then do
      let ps ← pyIter lp
      match ps with
      | [p1, p2] => do
        let ok ← (do
          let b1 ← ptOk c.slope_m p1
          if b1 then do
            let b2 ← ptOk c.slope_m p2
            if b2 then pure (!(pyEq p1 p2)) else pure false
          else pure false)
        pure (require ok "line_points must lie on p=m*x and be distinct")
      | _ => pure []
    else pure []
  pure (e1 ++ e2 ++ e3 ++ e4 ++ epair ++ e7 ++ e8)

/-- Python `any(...)` over a generator with possibly-raising body:
short-circuits at the first `True`. -/
def pyAnyM (f : JVal → Option Bool) : List JVal → Option Bool
  | [] => some false
  | x :: xs => do
    let b ← f x
    if b then pure true else pyAnyM f xs

/-- The token loop of lines 150-158: duplicate-label and distractor
checks, threading the `seen_labels` set. -/
def tokLoop (slope : JVal) : List JVal → List String → List JVal → Option (List String)
  | [], errs, _ => some errs
  | t :: ts, errs, seen => do
    let lbl ← pyGet t "label" (.jstr "")
    let errs := errs ++ require (!(seen.any (fun x => pyEq x lbl))) "duplicate token label not allowed"
    let seen := seen ++ [lbl]
    let ty ← pyGet t "type" .jnull
    let lblRaw ← pyGet t "label" .jnull
    if pyEq ty (.jstr "const") && !(pyEq lblRaw (.jstr (pyStr slope))) then do
      let v ← pyGet t "value" .jnull
      let errs := errs
        ++ require (isIntBetween v 1 20 && !(pyEq v slope)) "distractor const must be 1..20 and != slope_m"
      tokLoop slope ts errs seen
    else
      tokLoop slope ts errs seen

/-- Section 5 of `validate_item` (lines 139-158): equation template and
token checks; also returns the extracted `eq_tmpl` and raw `tokens` used
by section 6. -/
def tokensErrs (c : Ctx) (item : JVal) : Option (List String × String × JVal) := do
  let eqt ← (do let v ← pyGet item "equation_template" (.jstr ""); pyNorm v)
  let e1 := require (eqt == "_ = _ * _" || eqt == "_ * _ = _")
    ("equation_template must be " ++ q "_ = _ * _" ++ " or " ++ q "_ * _ = _")
  let tokens ← pyGet item "tokens" (jarrL [])
  let e2 := require
    ((match tokens with | .jarr xs => decide (3 ≤ xs.toList.length) && decide (xs.toList.length ≤ 5) | _ => false))
    "tokens must have 3..5 entries"
  let rest ←
    match tokens with
    | .jarr xs => do
      let hp ← pyAnyM (fun t => do
        let ty ← pyGet t "type" .jnull
        if pyEq ty (.jstr "var") then do
          let l ← pyGet t "label" .jnull
          pure (pyEq l (.jstr "p"))
        else pure false) xs.toList
      let hx ← pyAnyM (fun t => do
        let ty ← pyGet t "type" .jnull
        if pyEq ty (.jstr "var") then do
          let l ← pyGet t "label" .jnull
          pure (pyEq l (.jstr c.x_var))
        else pure false) xs.toList
      let hm ← pyAnyM (fun t => do
        let ty ← pyGet t "type" .jnull
        if pyEq ty (.jstr "const") then do
          let l ← pyGet t "label" .jnull
          if pyEq l (.jstr (pyStr c.slope_m)) then do
            let v ← pyGet t "value" .jnull
            pure (pyEq v c.slope_m)
          else pure false
        else pure false) xs.toList
      let e3 := require (hp && hx && hm)
        ("tokens must include var " ++ q "p" ++ ", var x_var, and const slope_m")
      let el ← tokLoop c.slope_m xs.toList [] []
      pure (e3 ++ el)
    | _ => pure []
  pure (e1 ++ e2 ++ rest, eqt, tokens)

/-- Section 6 of `validate_item` (lines 160-182): answers checks. -/
def answersErrs (c : Ctx) (eqt : String) (tokens : JVal) (item : JVal) : Option (List String) := do
  let answers ← pyGet item "answers" (jobjL [])
  let fills ← pyGet answers "valid_fills" (jarrL [])
  let canon ← (do let v ← pyGet answers "canonical_str" (.jstr ""); pyNorm v)
  let e1 := require
    ((match fills with | .jarr xs => decide (2 ≤ xs.toList.length) | _ => false))
    "answers.valid_fills must include both orientations"
  let telems ← pyIter tokens
  let labels ← telems.mapM (fun t => pyGet t "label" .jnull)
  let felems ← pyIter fills
  let e2 ← felems.foldlM (fun errs f => do
    let errs := errs
      ++ require ((match f with | .jarr l => l.toList.length == 3 | _ => false))
        "each valid_fills entry must have 3 symbols"
    let syms ← pyIter f
    syms.foldlM (fun errs sym =>
      pure (errs ++ require (labels.any (fun l => pyEq l sym))
        ("valid_fills symbol " ++ q (pyStr sym) ++ " not in tokens"))) errs) []
  let expect_main : List JVal :=
    if eqt == "_ = _ * _" then
      [jarrL [.jstr "p", .jstr (pyStr c.slope_m), .jstr c.x_var],
       jarrL [.jstr "p", .jstr c.x_var, .jstr (pyStr c.slope_m)]]
    else
      [jarrL [.jstr (pyStr c.slope_m), .jstr c.x_var, .jstr "p"],
       jarrL [.jstr c.x_var, .jstr (pyStr c.slope_m), .jstr "p"]]
  let e3 ← expect_main.foldlM (fun errs ex => (pyIn ex fills).map
    (fun b => errs ++ require b ("valid_fills must include " ++ pyStr ex))) []
  let e4 := require
    (canon == "p=" ++ pyStr c.slope_m ++ "*" ++ c.x_var
      || canon == pyStr c.slope_m ++ "*" ++ c.x_var ++ "=p")
    ("answers.canonical_str must be " ++ q "p=m*x" ++ " or " ++ q "m*x=p")
  pure (e1 ++ e2 ++ e3 ++ e4)

/-- Section 7 of `validate_item` (lines 184-191): explanation checks. -/
def explanationErrs (c : Ctx) (item : JVal) : Option (List String) := do
  let expl ← pyGet item "explanation" (jobjL [])
  let eq_str ← (do let v ← pyGet expl "equation_str" (.jstr ""); pyNorm v)
  let e_txt ← (do let v ← pyGet expl "text" (.jstr ""); pyNorm v)
  let e1 := require (eq_str == "p=" ++ pyStr c.slope_m ++ "×" ++ c.x_var)
    ("explanation.equation_str must be " ++ q "p=m×x_var")
  let e2 := require (strIn "p" e_txt && strIn c.x_var e_txt)
    ("explanation.text must mention " ++ q "p" ++ " and x_var")
  let rateOk ←
    if strIn "$" e_txt then pure true
    else if strIn (pyStr c.slope_m) e_txt then pure true
    else do
      let v ← pyGet c.ctx "x_unit_label" (.jstr "")
      let s ← pyAddStr "per " v
      pure (strIn s e_txt)
  let e3 := require rateOk "explanation.text should indicate price rate ($ or number)"
  pure (e1 ++ e2 ++ e3)

/-- `validate_item` (lines 52-193): missing root keys abort with only the
missing-field errors; otherwise the sections run in order, all their
messages are concatenated, and the verdict is `errs == []`.  `none` is a
Python run-time error. -/
def validate_item (item : JVal) : Option (Bool × List String) := do
  let rmsgs ← rootErrs item
  if rmsgs.isEmpty then do
    let c ← extractCtx item
    let e2 ← contextErrs c
    let e3 ← tableErrs c item
    let e4 ← graphErrs c item
    let tk ← tokensErrs c item
    let e6 ← answersErrs c tk.2.1 tk.2.2 item
    let e7 ← explanationErrs c item
    let errs := e2 ++ e3 ++ e4 ++ tk.1 ++ e6 ++ e7
    pure (errs.isEmpty, errs)
  else
    pure (false, rmsgs)

/-- The canonical de-dup key of lines 203-204:
`(item_name.lower().strip(), x_unit, int(slope_m))`; `none` models any
exception caught by the `except` (missing keys, non-string `item_name`,
unconvertible `slope_m`). -/
def keyOf (it : JVal) : Option (String × JVal × Int) := do
  let stem ← pyGetItem it "stem"
  let c ← pyGetItem stem "context"
  let nmv ← pyGetItem c "item_name"
  let nm ← (match nmv with | .jstr s => some (pyStrip (pyLower s)) | _ => none)
  let xu ← pyGetItem c "x_unit"
  let smv ← pyGetItem c "slope_m"
  let sm ← pyInt smv
  pure (nm, xu, sm)

/-- Python tuple equality of two de-dup keys (the `x_unit` component is an
arbitrary value compared with `==`). -/
def keyEq (a b : String × JVal × Int) : Bool :=
  a.1 == b.1 && pyEq a.2.1 b.2.1 && a.2.2 == b.2.2

/-- The canonical image of a de-dup key under the bool/int
identification; two keys are Python-equal iff their images coincide. -/
def keyCanon (k : String × JVal × Int) : String × JVal × Int :=
  (k.1, pyCanon k.2.1, k.2.2)

/-- The loop of `dedupe_items` (lines 201-212) over the remaining items,
given the set of keys already seen. -/
def dedupeGo : List JVal → List (String × JVal × Int) → List JVal × Nat
  | [], _ => ([], 0)
  | it :: rest, seen =>
    match keyOf it with
    | none =>
      let r := dedupeGo rest seen
      (it :: r.1, r.2)
    | some key =>
      if seen.any (fun k => keyEq key k) then
        let r := dedupeGo rest seen
        (r.1, r.2 + 1)
      else
        let r := dedupeGo rest (key :: seen)
        (it :: r.1, r.2)

/-- `dedupe_items` (lines 197-212): kept items in order plus the dropped
count. -/
def dedupe_items (items : List JVal) : List JVal × Nat := dedupeGo items []

/-- Two items share a canonical key (both keys extractable and equal). -/
def sameKey (a b : JVal) : Bool :=
  match keyOf a, keyOf b with
  | some ka, some kb => keyEq ka kb
  | _, _ => false

/-- Specification of de-duplication in the words of the spec: an item is
dropped (and counted) exactly when its key is extractable and some
earlier item of the batch has the same key; all other items are kept in
order.  `pre` is the already-processed prefix. -/
def dedupeSpecGo : List JVal → List JVal → List JVal × Nat
  | _, [] => ([], 0)
  | pre, it :: rest =>
    if (keyOf it).isSome && pre.any (fun x => sameKey it x) then
      let r := dedupeSpecGo (pre ++ [it]) rest
      (r.1, r.2 + 1)
    else
      let r := dedupeSpecGo (pre ++ [it]) rest
      (it :: r.1, r.2)

/-- First-occurrence semantics over a whole batch. -/
def dedupeFirstOccurrence (items : List JVal) : List JVal × Nat := dedupeSpecGo [] items

/-- Whether `validate_item` returns a passing verdict (`main`, line 238). -/
def isPass (it : JVal) : Bool :=
  match validate_item it with
  | some (true, _) => true
  | _ => false

/-- The Validator's passed-output for a batch: de-duplicate, then keep the
items that validate (lines 233-239). -/
def passedOutput (items : List JVal) : List JVal :=
  ((dedupe_items items).1).filter isPass

/-- A context record carrying only the fields the table section reads
(slope, unit, unit label); the other fields are irrelevant to it. -/
def mkCtx (m : Int) (xu xul : String) : Ctx :=
  ⟨jobjL [], jobjL [], "", "", "", "", "", xu, xul, "", .jint m⟩

/-- An item carrying just a table, for checking the table section. -/
def mkTableItem (upv : JVal) (upd : String) (av : JVal) (ad : String)
    (tv : JVal) (td : String) : JVal :=
  jobjL [("table", jobjL [
    ("unit_price", jobjL [("value", upv), ("display", .jstr upd)]),
    ("amount", jobjL [("value", av), ("display", .jstr ad)]),
    ("total", jobjL [("value", tv), ("display", .jstr td)])])]

/-- Claim C5's table contract exactly as stated by the spec: in
particular the unit-price display merely *contains* the currency
marker. -/
def c5Stated (m : Int) (xu xul : String) (upv : JVal) (upd : String)
    (av : JVal) (ad : String) (tv : JVal) (td : String) : Prop :=
  upv = .jint m
  ∧ strIn "$" (pyStrip upd) = true
  ∧ strIn ("/" ++ xul) (pyStrip upd) = true
  ∧ strIn (toString m) (pyStrip upd) = true
  ∧ ∃ a : Int, av = .jint a ∧ 1 ≤ a ∧ a ≤ 10
      ∧ strEnds (pyStrip ad) (" " ++ xu) = true
      ∧ strIn (toString a) (pyStrip ad) = true
      ∧ tv = .jint (m * a)
      ∧ strStarts (pyStrip td) "$" = true
      ∧ strIn (toString (m * a)) (pyStrip td) = true

/-- The table contract as the code enforces it: as `c5Stated`, except
that the unit-price display must *start with* the currency marker. -/
def c5Amended (m : Int) (xu xul : String) (upv : JVal) (upd : String)
    (av : JVal) (ad : String) (tv : JVal) (td : String) : Prop :=
  upv = .jint m
  ∧ strStarts (pyStrip upd) "$" = true
  ∧ strIn ("/" ++ xul) (pyStrip upd) = true
  ∧ strIn (toString m) (pyStrip upd) = true
  ∧ ∃ a : Int, av = .jint a ∧ 1 ≤ a ∧ a ≤ 10
      ∧ strEnds (pyStrip ad) (" " ++ xu) = true
      ∧ strIn (toString a) (pyStrip ad) = true
      ∧ tv = .jint (m * a)
      ∧ strStarts (pyStrip td) "$" = true
      ∧ strIn (toString (m * a)) (pyStrip td) = true

/-- A fully valid price-puzzle item (the schema example of
`Writing-Equations/generate.py`, `lin-kg-001`). -/
def goodItem : JVal := jobjL [
  ("id", .jstr "lin-kg-001"),
  ("stem", jobjL [
    ("prompt_text", .jstr
      "Create an equation that relates the price p and the weight w. Apples cost $6 per kilogram."),
    ("context", jobjL [
      ("y_var", .jstr "p"), ("y_name", .jstr "price"), ("y_unit", .jstr "$"),
      ("x_var", .jstr "w"), ("x_name", .jstr "weight"), ("x_unit", .jstr "kg"),
      ("x_unit_label", .jstr "kg"), ("item_name", .jstr "apples"), ("slope_m", .jint 6)])]),
  ("table", jobjL [
    ("unit_price", jobjL [("value", .jint 6), ("display", .jstr "$6.00/kg")]),
    ("amount", jobjL [("value", .jint 3), ("display", .jstr "3 kg")]),
    ("total", jobjL [("value", .jint 18), ("display", .jstr "$18.00")])]),
  ("graph", jobjL [
    ("x_axis", jobjL [("label", .jstr "weight (kg)"),
      ("ticks", jarrL [.jint 2, .jint 4, .jint 6, .jint 8, .jint 10])]),
    ("y_axis", jobjL [("label", .jstr "price ($)"),
      ("ticks", jarrL [.jint 12, .jint 24, .jint 36, .jint 48, .jint 60])]),
    ("line_points", jarrL [jarrL [.jint 0, .jint 0], jarrL [.jint 10, .jint 60]])]),
  ("equation_template", .jstr "_ * _ = _"),
  ("tokens", jarrL [
    jobjL [("type", .jstr "const"), ("label", .jstr "6"), ("value", .jint 6)],
    jobjL [("type", .jstr "var"), ("label", .jstr "p")],
    jobjL [("type", .jstr "var"), ("label", .jstr "w")],
    jobjL [("type", .jstr "const"), ("label", .jstr "4"), ("value", .jint 4)]]),
  ("answers", jobjL [
    ("valid_fills", jarrL [jarrL [.jstr "6", .jstr "w", .jstr "p"],
      jarrL [.jstr "w", .jstr "6", .jstr "p"]]),
    ("canonical_str", .jstr "p=6*w")]),
  ("explanation", jobjL [
    ("equation_str", .jstr "p=6×w"),
    ("text", .jstr "Get price p by multiplying weight w by $6 per kg.")])]

/-- An item with every required root field present whose `stem` is the
integer `0`: `stem.get("context", {})` raises in Python. -/
def crashItem : JVal := jobjL [
  ("id", .jnull), ("stem", .jint 0), ("table", .jnull), ("graph", .jnull),
  ("equation_template", .jnull), ("tokens", .jnull), ("answers", .jnull),
  ("explanation", .jnull)]

/-- First duplicate item of concrete scenario 2. -/
def bananaA : JVal := jobjL [
  ("stem", jobjL [("context", jobjL [
    ("item_name", .jstr "Bananas"), ("x_unit", .jstr "kg"), ("slope_m", .jint 8)])])]

/-- Second duplicate item of concrete scenario 2 (same key up to case). -/
def bananaB : JVal := jobjL [
  ("stem", jobjL [("context", jobjL [
    ("item_name", .jstr "bananas"), ("x_unit", .jstr "kg"), ("slope_m", .jint 8)])])]

end PriceVal

namespace Scales

/-- Concrete weight assignment used to witness claim C1
(`2·s = 5·t`, so square weighs 5 and triangle 2). -/
def wC1 : Shape → ℚ :=
  fun sh => match sh with | .s => 5 | .t => 2 | .c => 1

/-- Concrete weight assignment used to witness claim C2
(`2·s + 1 = 2·t + 5`, so square weighs 4 and triangle 2). -/
def wC2 : Shape → ℚ :=
  fun sh => match sh with | .s => 4 | .t => 2 | .c => 1

theorem evalT_updC (w : Shape → ℚ) (f : Shape → Int) (a : Shape) (v wt : Int) :
    evalT w ⟨updC f a v, wt⟩ = evalT w ⟨f, wt⟩ + ((v : ℚ) - (f a : ℚ)) * w a := by
  cases a <;> simp [evalT, updC] <;> ring

theorem evalT_single (w : Shape → ℚ) (a : Shape) (wt : Int) :
    evalT w ⟨updC (fun _ => 0) a 1, wt⟩ = w a + (wt : ℚ) := by
  cases a <;> simp [evalT, updC]

theorem evalT_mk3 (w : Shape → ℚ) (X Y Z : Shape) (kx ky kz wt : Int)
    (hXY : X ≠ Y) (hXZ : X ≠ Z) (hYZ : Y ≠ Z) :
    evalT w ⟨mkCoef3 (X, kx) (Y, ky) (Z, kz), wt⟩ =
      (kx : ℚ) * w X + (ky : ℚ) * w Y + (kz : ℚ) * w Z + (wt : ℚ) := by
  cases X <;> cases Y <;> cases Z <;> simp_all [evalT, mkCoef3] <;> ring

theorem evalT_weight_shift (w : Shape → ℚ) (f : Shape → Int) (a b : Int) :
    evalT w ⟨f, a + b⟩ = evalT w ⟨f, a⟩ + (b : ℚ) := by
  simp [evalT]
  push_cast
  ring

/-- C1.  For every puzzle produced by the easy proportional-equality
strategy (distinct coefficients `k1 ≠ k2` in `[1,6]`, optional shared term
`k3·Z` on both sides): for all positive shape weights satisfying the
generated equality, substituting the stored answer pair into the
inequality with the stored operator yields a true statement, the symbol
with the smaller coefficient is the heavier one, and with `k1 = 2`,
`k2 = 5` and operator `>` the answer is `[X, Y]`. -/
theorem claim_C1 (X Y Z : Shape) (k1 k2 k3r : Int) (addZ : Bool) (op : Op)
    (hXY : X ≠ Y) (hXZ : X ≠ Z) (hYZ : Y ≠ Z)
    (hk1l : 1 ≤ k1) (hk1u : k1 ≤ 6) (hk2l : 1 ≤ k2) (hk2u : k2 ≤ 6) (hne : k2 ≠ k1)
    (hk3 : addZ = true → 1 ≤ k3r ∧ k3r ≤ 4)
    (w : Shape → ℚ) (hw : ∀ sh, 0 < w sh)
    (heq : evalT w (easy_puzzle_proportional_equality X Y Z k1 k2 addZ k3r op).eq_left
         = evalT w (easy_puzzle_proportional_equality X Y Z k1 k2 addZ k3r op).eq_right) :
    holdsIneq w (easy_puzzle_proportional_equality X Y Z k1 k2 addZ k3r op).ineq_left
      (easy_puzzle_proportional_equality X Y Z k1 k2 addZ k3r op).ineq_right
      (easy_puzzle_proportional_equality X Y Z k1 k2 addZ k3r op).op
    ∧ (k1 < k2 → w X > w Y) ∧ (k2 < k1 → w Y > w X)
    ∧ (k1 = 2 → k2 = 5 → op = Op.gt →
        (easy_puzzle_proportional_equality X Y Z k1 k2 addZ k3r op).answer = [X, Y]) := by
  have hmain : (k1 : ℚ) * w X = (k2 : ℚ) * w Y := by
    cases addZ with
    | false =>
      have h := heq
      simp only [easy_puzzle_proportional_equality, Bool.false_eq_true, if_false] at h
      rw [evalT_mk3 w X Y Z k1 0 0 0 hXY hXZ hYZ,
        evalT_mk3 w X Y Z 0 k2 0 0 hXY hXZ hYZ] at h
      push_cast at h
      linarith
    | true =>
      have h := heq
      simp only [easy_puzzle_proportional_equality, if_true] at h
      rw [evalT_updC, evalT_updC,
        evalT_mk3 w X Y Z k1 0 0 0 hXY hXZ hYZ,
        evalT_mk3 w X Y Z 0 k2 0 0 hXY hXZ hYZ] at h
      have hLZ : mkCoef3 (X, k1) (Y, 0) (Z, 0) Z = 0 := by simp [mkCoef3]
      have hRZ : mkCoef3 (X, 0) (Y, k2) (Z, 0) Z = 0 := by simp [mkCoef3]
      rw [hLZ, hRZ] at h
      push_cast at h
      linarith
  have hX := hw X
  have hY := hw Y
  have hk1q : (1 : ℚ) ≤ (k1 : ℚ) := by exact_mod_cast hk1l
  have hk2q : (1 : ℚ) ≤ (k2 : ℚ) := by exact_mod_cast hk2l
  have hlt : k1 < k2 → w Y < w X := by
    intro hc
    have hcq : (k1 : ℚ) < (k2 : ℚ) := by exact_mod_cast hc
    have h1 : (k1 : ℚ) * w Y < (k1 : ℚ) * w X := by nlinarith
    exact lt_of_mul_lt_mul_left h1 (by linarith)
  have hgt : k2 < k1 → w X < w Y := by
    intro hc
    have hcq : (k2 : ℚ) < (k1 : ℚ) := by exact_mod_cast hc
    have h1 : (k2 : ℚ) * w X < (k2 : ℚ) * w Y := by nlinarith
    exact lt_of_mul_lt_mul_left h1 (by linarith)
  refine ⟨?_, fun h => hlt h, fun h => hgt h, fun h2 h5 hop => ?_⟩
  · rcases lt_or_gt_of_ne (Ne.symm hne) with hc | hc
    · cases op with
      | gt =>
        simp only [easy_puzzle_proportional_equality, holdsIneq, propAns, if_pos hc]
        rw [evalT_single, evalT_single]
        simpa using hlt hc
      | lt =>
        simp only [easy_puzzle_proportional_equality, holdsIneq, propAns, if_pos hc]
        rw [evalT_single, evalT_single]
        simpa using hlt hc
    · cases op with
      | gt =>
        simp only [easy_puzzle_proportional_equality, holdsIneq, propAns,
          if_neg (not_lt.mpr (le_of_lt hc))]
        rw [evalT_single, evalT_single]
        simpa using hgt hc
      | lt =>
        simp only [easy_puzzle_proportional_equality, holdsIneq, propAns,
          if_neg (not_lt.mpr (le_of_lt hc))]
        rw [evalT_single, evalT_single]
        simpa using hgt hc
  · subst h2; subst h5; subst hop
    simp [easy_puzzle_proportional_equality, propAns]

/-- Witness for C1 at the concrete scenario: shapes `s,t,c`, `k1 = 2`,
`k2 = 5`, no shared term, operator `>`, weights `s ↦ 5, t ↦ 2, c ↦ 1`. -/
theorem claim_C1_witness :
    holdsIneq wC1 (easy_puzzle_proportional_equality .s .t .c 2 5 false 0 .gt).ineq_left
      (easy_puzzle_proportional_equality .s .t .c 2 5 false 0 .gt).ineq_right
      (easy_puzzle_proportional_equality .s .t .c 2 5 false 0 .gt).op
    ∧ ((2 : Int) < 5 → wC1 .s > wC1 .t) ∧ ((5 : Int) < 2 → wC1 .t > wC1 .s)
    ∧ ((2 : Int) = 2 → (5 : Int) = 5 → Op.gt = Op.gt →
        (easy_puzzle_proportional_equality .s .t .c 2 5 false 0 .gt).answer = [.s, .t]) :=
  claim_C1 .s .t .c 2 5 0 false .gt (by decide) (by decide) (by decide)
    (by decide) (by decide) (by decide) (by decide) (by decide)
    (by intro h; cases h)
    wC1 (by intro sh; cases sh <;> norm_num [wC1])
    (by simp [easy_puzzle_proportional_equality, evalT, mkCoef3, wC1]; norm_num)

/-- C2.  For every puzzle produced by the easy weighted-equality strategy
(shared coefficient `k` in `[1,4]`, distinct additive weights `w1 ≠ w2` in
`[1,6]`): the symbol on the side with the larger additive weight is the
lighter unit, and substituting the stored answer into the inequality with
the stored operator yields a true statement for all positive weights
satisfying the generated equality. -/
theorem claim_C2 (X Y Z : Shape) (w1 w2 k1 : Int) (op : Op)
    (hXY : X ≠ Y) (hXZ : X ≠ Z) (hYZ : Y ≠ Z)
    (hw1l : 1 ≤ w1) (hw1u : w1 ≤ 6) (hw2l : 1 ≤ w2) (hw2u : w2 ≤ 6) (hne : w2 ≠ w1)
    (hk1l : 1 ≤ k1) (hk1u : k1 ≤ 4)
    (w : Shape → ℚ) (hw : ∀ sh, 0 < w sh)
    (heq : evalT w (easy_puzzle_weighted_equality X Y Z w1 w2 k1 op).eq_left
         = evalT w (easy_puzzle_weighted_equality X Y Z w1 w2 k1 op).eq_right) :
    holdsIneq w (easy_puzzle_weighted_equality X Y Z w1 w2 k1 op).ineq_left
      (easy_puzzle_weighted_equality X Y Z w1 w2 k1 op).ineq_right
      (easy_puzzle_weighted_equality X Y Z w1 w2 k1 op).op
    ∧ (w1 < w2 → w X > w Y) ∧ (w2 < w1 → w Y > w X) := by
  have hmain : (k1 : ℚ) * w X + (w1 : ℚ) = (k1 : ℚ) * w Y + (w2 : ℚ) := by
    have h := heq
    simp only [easy_puzzle_weighted_equality] at h
    rw [evalT_mk3 w X Y Z k1 0 0 w1 hXY hXZ hYZ,
      evalT_mk3 w X Y Z 0 k1 0 w2 hXY hXZ hYZ] at h
    push_cast at h
    linarith
  have hk1q : (1 : ℚ) ≤ (k1 : ℚ) := by exact_mod_cast hk1l
  have hlt : w1 < w2 → w Y < w X := by
    intro hc
    have hcq : (w1 : ℚ) < (w2 : ℚ) := by exact_mod_cast hc
    have h1 : (k1 : ℚ) * w Y < (k1 : ℚ) * w X := by nlinarith
    exact lt_of_mul_lt_mul_left h1 (by linarith)
  have hgt : w2 < w1 → w X < w Y := by
    intro hc
    have hcq : (w2 : ℚ) < (w1 : ℚ) := by exact_mod_cast hc
    have h1 : (k1 : ℚ) * w X < (k1 : ℚ) * w Y := by nlinarith
    exact lt_of_mul_lt_mul_left h1 (by linarith)
  refine ⟨?_, fun h => hlt h, fun h => hgt h⟩
  rcases lt_or_gt_of_ne (Ne.symm hne) with hc | hc
  · cases op with
    | gt =>
      simp only [easy_puzzle_weighted_equality, holdsIneq, weightedAns, if_pos hc]
      rw [evalT_single, evalT_single]
      simpa using hlt hc
    | lt =>
      simp only [easy_puzzle_weighted_equality, holdsIneq, weightedAns, if_pos hc]
      rw [evalT_single, evalT_single]
      simpa using hlt hc
  · cases op with
    | gt =>
      simp only [easy_puzzle_weighted_equality, holdsIneq, weightedAns,
        if_neg (not_lt.mpr (le_of_lt hc))]
      rw [evalT_single, evalT_single]
      simpa using hgt hc
    | lt =>
      simp only [easy_puzzle_weighted_equality, holdsIneq, weightedAns,
        if_neg (not_lt.mpr (le_of_lt hc))]
      rw [evalT_single, evalT_single]
      simpa using hgt hc

/-- Witness for C2: shapes `s,t,c`, `w1 = 1`, `w2 = 5`, `k = 2`,
operator `>`, weights `s ↦ 4, t ↦ 2, c ↦ 1` (so `2·4 + 1 = 2·2 + 5`). -/
theorem claim_C2_witness :
    holdsIneq wC2 (easy_puzzle_weighted_equality .s .t .c 1 5 2 .gt).ineq_left
      (easy_puzzle_weighted_equality .s .t .c 1 5 2 .gt).ineq_right
      (easy_puzzle_weighted_equality .s .t .c 1 5 2 .gt).op
    ∧ ((1 : Int) < 5 → wC2 .s > wC2 .t) ∧ ((5 : Int) < 1 → wC2 .t > wC2 .s) :=
  claim_C2 .s .t .c 1 5 2 .gt (by decide) (by decide) (by decide)
    (by decide) (by decide) (by decide) (by decide) (by decide) (by decide) (by decide)
    wC2 (by intro sh; cases sh <;> norm_num [wC2])
    (by simp [easy_puzzle_weighted_equality, evalT, mkCoef3, wC2]; norm_num)

theorem diffD_eq (k1 w woff : Int) (swap : Bool) (hk1 : 1 ≤ k1) :
    diffD k1 w woff swap = if swap then -(woff : ℚ) else (woff : ℚ) := by
  have hk0 : (0 : ℚ) < (k1 : ℚ) := by exact_mod_cast lt_of_lt_of_le Int.zero_lt_one hk1
  have hk : ((k1 : ℚ)) ≠ 0 := ne_of_gt hk0
  cases swap <;> simp [diffD, diffW0, diffW1] <;> push_cast <;> field_simp <;> ring

theorem abs_diffD_eq (k1 w woff : Int) (swap : Bool) (hk1 : 1 ≤ k1) (hwoff : 1 ≤ woff) :
    |diffD k1 w woff swap| = (woff : ℚ) := by
  rw [diffD_eq k1 w woff swap hk1]
  have h0 : (0 : ℚ) ≤ (woff : ℚ) := by exact_mod_cast (by omega : (0 : Int) ≤ woff)
  cases swap <;> simp [abs_of_nonneg h0]

theorem diffGap_eq (k1 w woff : Int) (swap : Bool) (hk1 : 1 ≤ k1) (hwoff : 1 ≤ woff) :
    diffGap k1 w woff swap = woff - 1 := by
  unfold diffGap pyTrunc
  rw [abs_diffD_eq k1 w woff swap hk1 hwoff]
  have h1 : (1 : ℚ) ≤ (woff : ℚ) := by exact_mod_cast hwoff
  rw [if_pos (by linarith : (0 : ℚ) ≤ (woff : ℚ) - 1)]
  have hcast : ((woff : ℚ) - 1) = ((woff - 1 : Int) : ℚ) := by push_cast; ring
  rw [hcast, Int.floor_intCast]

/-- Under the generated equality, the difference of the two unit weights
equals `d`: `wX - wY = (weights[1] - weights[0]) / k1`. -/
theorem diff_sub_eq (X Y Z : Shape) (k1 w woff woff2 : Int) (swap escalate : Bool)
    (hXY : X ≠ Y) (hXZ : X ≠ Z) (hYZ : Y ≠ Z) (hk1 : 1 ≤ k1)
    (wgt : Shape → ℚ)
    (heq : evalT wgt (difficult_puzzle_weighted_equality X Y Z k1 w woff swap escalate woff2).eq_left
         = evalT wgt (difficult_puzzle_weighted_equality X Y Z k1 w woff swap escalate woff2).eq_right) :
    wgt X - wgt Y = diffD k1 w woff swap := by
  have hk0 : (0 : ℚ) < (k1 : ℚ) := by exact_mod_cast lt_of_lt_of_le Int.zero_lt_one hk1
  have hmain : (k1 : ℚ) * wgt X + ((diffW0 k1 w woff swap : Int) : ℚ)
      = (k1 : ℚ) * wgt Y + ((diffW1 k1 w woff swap : Int) : ℚ) := by
    cases escalate <;>
      (simp only [difficult_puzzle_weighted_equality, Bool.false_eq_true, if_false, if_true] at heq
       rw [evalT_mk3 wgt X Y Z k1 0 0 _ hXY hXZ hYZ,
         evalT_mk3 wgt X Y Z 0 k1 0 _ hXY hXZ hYZ] at heq
       push_cast at heq ⊢
       linarith)
  unfold diffD
  rw [eq_div_iff (ne_of_gt hk0)]
  push_cast
  linarith

/-- C3 (amended).  For every puzzle produced by the difficult strategy:
the inequality gap constant equals `floor(|d|) - 1` with
`d = (right weight - left weight) / k`; when the escalation branch does
not fire the template is literally `_>_+gap`, and when it fires the
template is `_+Z+off>_+Z+(gap+off)` — in both cases oriented with `>`;
the answer's first symbol is picked by the sign of `d` and is the
heavier unit under every positive weight assignment satisfying the
equality. -/
theorem claim_C3_amended (X Y Z : Shape) (k1 w woff woff2 : Int) (swap escalate : Bool)
    (hXY : X ≠ Y) (hXZ : X ≠ Z) (hYZ : Y ≠ Z)
    (hk1l : 1 ≤ k1) (hk1u : k1 ≤ 3) (hwl : 1 ≤ w) (hwu : w ≤ 4)
    (hol : 2 ≤ woff) (hou : woff ≤ 4)
    (ho2 : escalate = true → 1 ≤ woff2 ∧ woff2 ≤ 5) :
    diffGap k1 w woff swap = ⌊|diffD k1 w woff swap|⌋ - 1
    ∧ (escalate = false →
        (difficult_puzzle_weighted_equality X Y Z k1 w woff swap escalate woff2).tmpl
          = "_>_+" ++ toString (diffGap k1 w woff swap))
    ∧ (escalate = true →
        (difficult_puzzle_weighted_equality X Y Z k1 w woff swap escalate woff2).tmpl
          = "_+" ++ shapeStr Z ++ "+" ++ toString woff2 ++ ">_+" ++ shapeStr Z ++ "+"
            ++ toString (diffGap k1 w woff swap + woff2))
    ∧ (0 < diffD k1 w woff swap →
        (difficult_puzzle_weighted_equality X Y Z k1 w woff swap escalate woff2).answer = [X, Y])
    ∧ (diffD k1 w woff swap < 0 →
        (difficult_puzzle_weighted_equality X Y Z k1 w woff swap escalate woff2).answer = [Y, X])
    ∧ (∀ wgt : Shape → ℚ, (∀ sh, 0 < wgt sh) →
        evalT wgt (difficult_puzzle_weighted_equality X Y Z k1 w woff swap escalate woff2).eq_left
          = evalT wgt (difficult_puzzle_weighted_equality X Y Z k1 w woff swap escalate woff2).eq_right →
        (0 < diffD k1 w woff swap → wgt X > wgt Y)
        ∧ (diffD k1 w woff swap < 0 → wgt Y > wgt X)) := by
  have hwoff1 : 1 ≤ woff := le_trans (by decide) hol
  refine ⟨?_, ?_, ?_, ?_, ?_, ?_⟩
  · rw [diffGap_eq k1 w woff swap hk1l hwoff1, abs_diffD_eq k1 w woff swap hk1l hwoff1,
      Int.floor_intCast]
  · intro hesc; subst hesc
    simp [difficult_puzzle_weighted_equality]
  · intro hesc; subst hesc
    simp [difficult_puzzle_weighted_equality]
  · intro hd
    cases escalate <;> simp [difficult_puzzle_weighted_equality, diffAns, if_pos hd]
  · intro hd
    cases escalate <;>
      simp [difficult_puzzle_weighted_equality, diffAns, if_neg (not_lt.mpr (le_of_lt hd))]
  · intro wgt hpos heq
    have hsub := diff_sub_eq X Y Z k1 w woff woff2 swap escalate hXY hXZ hYZ hk1l wgt heq
    exact ⟨fun hd => by linarith, fun hd => by linarith⟩

/-- Witness for C3 (amended) at concrete draws `k1 = 2, w = 1, woff = 3`,
no permutation flip, escalation off. -/
theorem claim_C3_amended_witness :
    diffGap 2 1 3 false = ⌊|diffD 2 1 3 false|⌋ - 1
    ∧ (false = false →
        (difficult_puzzle_weighted_equality .s .t .c 2 1 3 false false 1).tmpl
          = "_>_+" ++ toString (diffGap 2 1 3 false))
    ∧ (false = true →
        (difficult_puzzle_weighted_equality .s .t .c 2 1 3 false false 1).tmpl
          = "_+" ++ shapeStr .c ++ "+" ++ toString 1 ++ ">_+" ++ shapeStr .c ++ "+"
            ++ toString (diffGap 2 1 3 false + 1))
    ∧ (0 < diffD 2 1 3 false →
        (difficult_puzzle_weighted_equality .s .t .c 2 1 3 false false 1).answer = [.s, .t])
    ∧ (diffD 2 1 3 false < 0 →
        (difficult_puzzle_weighted_equality .s .t .c 2 1 3 false false 1).answer = [.t, .s])
    ∧ (∀ wgt : Shape → ℚ, (∀ sh, 0 < wgt sh) →
        evalT wgt (difficult_puzzle_weighted_equality .s .t .c 2 1 3 false false 1).eq_left
          = evalT wgt (difficult_puzzle_weighted_equality .s .t .c 2 1 3 false false 1).eq_right →
        (0 < diffD 2 1 3 false → wgt .s > wgt .t)
        ∧ (diffD 2 1 3 false < 0 → wgt .t > wgt .s)) :=
  claim_C3_amended .s .t .c 2 1 3 1 false false (by decide) (by decide) (by decide)
    (by decide) (by decide) (by decide) (by decide) (by decide) (by decide)
    (by intro h; cases h)

/-- Counterexample to C3 as stated: at draws `k1 = 1, w = 1, woff = 2`,
escalation on with offset 1, the emitted template is `_+c+1>_+c+2`, not of
the form `_>_+gap`. -/
theorem claim_C3_counterexample :
    (difficult_puzzle_weighted_equality .s .t .c 1 1 2 false true 1).tmpl
      ≠ "_>_+" ++ toString (diffGap 1 1 2 false) := by
  decide

/-- C4.  When the escalation branch fires, the same third shape symbol
(coefficient 1) and the same weight offset in `[1,5]` are added to both
sides of the inequality, and the comparison outcome is unchanged: for all
weights satisfying the equality, the escalated comparison holds iff the
base comparison does. -/
theorem claim_C4 (X Y Z : Shape) (k1 w woff woff2 : Int) (swap : Bool)
    (hXY : X ≠ Y) (hXZ : X ≠ Z) (hYZ : Y ≠ Z)
    (hk1l : 1 ≤ k1) (hk1u : k1 ≤ 3) (hwl : 1 ≤ w) (hwu : w ≤ 4)
    (hol : 2 ≤ woff) (hou : woff ≤ 4) (ho2l : 1 ≤ woff2) (ho2u : woff2 ≤ 5) :
    (difficult_puzzle_weighted_equality X Y Z k1 w woff swap true woff2).ineq_left.coef Z = 1
    ∧ (difficult_puzzle_weighted_equality X Y Z k1 w woff swap true woff2).ineq_right.coef Z = 1
    ∧ (difficult_puzzle_weighted_equality X Y Z k1 w woff swap true woff2).ineq_left.weight
        = (difficult_puzzle_weighted_equality X Y Z k1 w woff swap false woff2).ineq_left.weight + woff2
    ∧ (difficult_puzzle_weighted_equality X Y Z k1 w woff swap true woff2).ineq_right.weight
        = (difficult_puzzle_weighted_equality X Y Z k1 w woff swap false woff2).ineq_right.weight + woff2
    ∧ (∀ sh, sh ≠ Z →
        (difficult_puzzle_weighted_equality X Y Z k1 w woff swap true woff2).ineq_left.coef sh
          = (difficult_puzzle_weighted_equality X Y Z k1 w woff swap false woff2).ineq_left.coef sh
        ∧ (difficult_puzzle_weighted_equality X Y Z k1 w woff swap true woff2).ineq_right.coef sh
          = (difficult_puzzle_weighted_equality X Y Z k1 w woff swap false woff2).ineq_right.coef sh)
    ∧ (∀ wgt : Shape → ℚ, (∀ sh, 0 < wgt sh) →
        evalT wgt (difficult_puzzle_weighted_equality X Y Z k1 w woff swap true woff2).eq_left
          = evalT wgt (difficult_puzzle_weighted_equality X Y Z k1 w woff swap true woff2).eq_right →
        (evalT wgt (difficult_puzzle_weighted_equality X Y Z k1 w woff swap true woff2).ineq_left
            > evalT wgt (difficult_puzzle_weighted_equality X Y Z k1 w woff swap true woff2).ineq_right
          ↔ evalT wgt (difficult_puzzle_weighted_equality X Y Z k1 w woff swap false woff2).ineq_left
            > evalT wgt (difficult_puzzle_weighted_equality X Y Z k1 w woff swap false woff2).ineq_right)) := by
  have hans : ((diffAns k1 w woff swap X Y).1 = X ∨ (diffAns k1 w woff swap X Y).1 = Y)
      ∧ ((diffAns k1 w woff swap X Y).2 = X ∨ (diffAns k1 w woff swap X Y).2 = Y) := by
    unfold diffAns
    split <;> simp
  have hZ1 : Z ≠ (diffAns k1 w woff swap X Y).1 := by
    rcases hans.1 with h | h <;> rw [h]
    · exact Ne.symm hXZ
    · exact Ne.symm hYZ
  have hZ2 : Z ≠ (diffAns k1 w woff swap X Y).2 := by
    rcases hans.2 with h | h <;> rw [h]
    · exact Ne.symm hXZ
    · exact Ne.symm hYZ
  have hcoefL : (updC (mkCoef3 (X, 0) (Y, 0) (Z, 0)) (diffAns k1 w woff swap X Y).1 1) Z = 0 := by
    simp [updC, mkCoef3, if_neg hZ1]
  have hcoefR : (updC (mkCoef3 (X, 0) (Y, 0) (Z, 0)) (diffAns k1 w woff swap X Y).2 1) Z = 0 := by
    simp [updC, mkCoef3, if_neg hZ2]
  refine ⟨?_, ?_, ?_, ?_, ?_, ?_⟩
  · simp [difficult_puzzle_weighted_equality, updC]
  · simp [difficult_puzzle_weighted_equality, updC]
  · simp [difficult_puzzle_weighted_equality]
  · simp [difficult_puzzle_weighted_equality]
  · intro sh hsh
    constructor <;> simp [difficult_puzzle_weighted_equality, updC, if_neg hsh]
  · intro wgt hpos heq
    have hL : evalT wgt (difficult_puzzle_weighted_equality X Y Z k1 w woff swap true woff2).ineq_left
        = evalT wgt (difficult_puzzle_weighted_equality X Y Z k1 w woff swap false woff2).ineq_left
          + (woff2 : ℚ) + wgt Z := by
      simp only [difficult_puzzle_weighted_equality, if_true, Bool.false_eq_true, if_false]
      rw [evalT_updC]
      rw [hcoefL]
      rw [evalT_weight_shift]
      push_cast
      ring
    have hR : evalT wgt (difficult_puzzle_weighted_equality X Y Z k1 w woff swap true woff2).ineq_right
        = evalT wgt (difficult_puzzle_weighted_equality X Y Z k1 w woff swap false woff2).ineq_right
          + (woff2 : ℚ) + wgt Z := by
      simp only [difficult_puzzle_weighted_equality, if_true, Bool.false_eq_true, if_false]
      rw [evalT_updC]
      rw [hcoefR]
      rw [evalT_weight_shift]
      push_cast
      ring
    rw [hL, hR]
    constructor <;> intro h <;> linarith

/-- Witness for C4 at concrete draws `k1 = 2, w = 1, woff = 3`, no
permutation flip, escalation offset 2. -/
theorem claim_C4_witness :
    (difficult_puzzle_weighted_equality .s .t .c 2 1 3 false true 2).ineq_left.coef .c = 1
    ∧ (difficult_puzzle_weighted_equality .s .t .c 2 1 3 false true 2).ineq_right.coef .c = 1
    ∧ (difficult_puzzle_weighted_equality .s .t .c 2 1 3 false true 2).ineq_left.weight
        = (difficult_puzzle_weighted_equality .s .t .c 2 1 3 false false 2).ineq_left.weight + 2
    ∧ (difficult_puzzle_weighted_equality .s .t .c 2 1 3 false true 2).ineq_right.weight
        = (difficult_puzzle_weighted_equality .s .t .c 2 1 3 false false 2).ineq_right.weight + 2
    ∧ (∀ sh, sh ≠ Shape.c →
        (difficult_puzzle_weighted_equality .s .t .c 2 1 3 false true 2).ineq_left.coef sh
          = (difficult_puzzle_weighted_equality .s .t .c 2 1 3 false false 2).ineq_left.coef sh
        ∧ (difficult_puzzle_weighted_equality .s .t .c 2 1 3 false true 2).ineq_right.coef sh
          = (difficult_puzzle_weighted_equality .s .t .c 2 1 3 false false 2).ineq_right.coef sh)
    ∧ (∀ wgt : Shape → ℚ, (∀ sh, 0 < wgt sh) →
        evalT wgt (difficult_puzzle_weighted_equality .s .t .c 2 1 3 false true 2).eq_left
          = evalT wgt (difficult_puzzle_weighted_equality .s .t .c 2 1 3 false true 2).eq_right →
        (evalT wgt (difficult_puzzle_weighted_equality .s .t .c 2 1 3 false true 2).ineq_left
            > evalT wgt (difficult_puzzle_weighted_equality .s .t .c 2 1 3 false true 2).ineq_right
          ↔ evalT wgt (difficult_puzzle_weighted_equality .s .t .c 2 1 3 false false 2).ineq_left
            > evalT wgt (difficult_puzzle_weighted_equality .s .t .c 2 1 3 false false 2).ineq_right)) :=
  claim_C4 .s .t .c 2 1 3 2 false (by decide) (by decide) (by decide) (by decide)
    (by decide) (by decide) (by decide) (by decide) (by decide) (by decide) (by decide)

/-- C10.  The two side weights of the difficult strategy are exactly
`k·w` and `k·(w+w_offset)` in one of the two orders, `|d| = w_offset` lies
in `[2,4]` exactly, and the emitted gap `int(|d| - 1)` is an integer in
`[1,3]`; a zero or negative gap is unreachable. -/
theorem claim_C10 (X Y Z : Shape) (k1 w woff woff2 : Int) (swap escalate : Bool)
    (hXY : X ≠ Y) (hXZ : X ≠ Z) (hYZ : Y ≠ Z)
    (hk1l : 1 ≤ k1) (hk1u : k1 ≤ 3) (hwl : 1 ≤ w) (hwu : w ≤ 4)
    (hol : 2 ≤ woff) (hou : woff ≤ 4) :
    (((difficult_puzzle_weighted_equality X Y Z k1 w woff swap escalate woff2).eq_left.weight,
       (difficult_puzzle_weighted_equality X Y Z k1 w woff swap escalate woff2).eq_right.weight)
        = (k1 * w, k1 * (w + woff))
      ∨ ((difficult_puzzle_weighted_equality X Y Z k1 w woff swap escalate woff2).eq_left.weight,
       (difficult_puzzle_weighted_equality X Y Z k1 w woff swap escalate woff2).eq_right.weight)
        = (k1 * (w + woff), k1 * w))
    ∧ |diffD k1 w woff swap| = (woff : ℚ)
    ∧ 2 ≤ woff ∧ woff ≤ 4
    ∧ diffGap k1 w woff swap = woff - 1
    ∧ 1 ≤ diffGap k1 w woff swap ∧ diffGap k1 w woff swap ≤ 3 := by
  have hwoff1 : 1 ≤ woff := le_trans (by decide) hol
  have hgap := diffGap_eq k1 w woff swap hk1l hwoff1
  refine ⟨?_, abs_diffD_eq k1 w woff swap hk1l hwoff1, hol, hou, hgap, ?_, ?_⟩
  · cases escalate <;> cases swap <;>
      simp [difficult_puzzle_weighted_equality, diffW0, diffW1]
  · omega
  · omega

/-- Witness for C10 at concrete draws `k1 = 3, w = 4, woff = 2`, with the
permutation flip on and escalation on. -/
theorem claim_C10_witness :
    (((difficult_puzzle_weighted_equality .s .t .c 3 4 2 true true 1).eq_left.weight,
       (difficult_puzzle_weighted_equality .s .t .c 3 4 2 true true 1).eq_right.weight)
        = (3 * 4, 3 * (4 + 2))
      ∨ ((difficult_puzzle_weighted_equality .s .t .c 3 4 2 true true 1).eq_left.weight,
       (difficult_puzzle_weighted_equality .s .t .c 3 4 2 true true 1).eq_right.weight)
        = (3 * (4 + 2), 3 * 4))
    ∧ |diffD 3 4 2 true| = ((2 : Int) : ℚ)
    ∧ (2 : Int) ≤ 2 ∧ (2 : Int) ≤ 4
    ∧ diffGap 3 4 2 true = 2 - 1
    ∧ 1 ≤ diffGap 3 4 2 true ∧ diffGap 3 4 2 true ≤ 3 :=
  claim_C10 .s .t .c 3 4 2 1 true true (by decide) (by decide) (by decide)
    (by decide) (by decide) (by decide) (by decide) (by decide) (by decide)

end Scales

namespace PriceVal

theorem require_eq_nil (c : Bool) (m : String) : require c m = [] ↔ c = true := by
  cases c <;> simp [require]

/-- A root-key check that reports missing fields makes `validate_item`
return exactly those errors with a failing verdict. -/
theorem validate_root_abort (item : JVal) (msgs : List String)
    (h : rootErrs item = some msgs) (hne : msgs ≠ []) :
    validate_item item = some (false, msgs) := by
  cases msgs with
  | nil => exact absurd rfl hne
  | cons a l =>
    unfold validate_item
    rw [h]
    rfl

/-- Structure of a completed validation run: the verdict is the emptiness
of the error list, which is the concatenation of the six sections' error
lists, each of which was computed. -/
theorem validate_decomp (item : JVal) (ok : Bool) (errs : List String)
    (hroot : rootErrs item = some [])
    (hval : validate_item item = some (ok, errs)) :
    (ok = true ↔ errs = [])
    ∧ ∃ c e2 e3 e4 tk e6 e7,
        extractCtx item = some c ∧ contextErrs c = some e2 ∧ tableErrs c item = some e3
        ∧ graphErrs c item = some e4 ∧ tokensErrs c item = some tk
        ∧ answersErrs c tk.2.1 tk.2.2 item = some e6 ∧ explanationErrs c item = some e7
        ∧ errs = e2 ++ e3 ++ e4 ++ tk.1 ++ e6 ++ e7 := by
  unfold validate_item at hval
  rw [hroot] at hval
  replace hval : (do
      let c ← extractCtx item
      let e2 ← contextErrs c
      let e3 ← tableErrs c item
      let e4 ← graphErrs c item
      let tk ← tokensErrs c item
      let e6 ← answersErrs c tk.2.1 tk.2.2 item
      let e7 ← explanationErrs c item
      let errs := e2 ++ e3 ++ e4 ++ tk.1 ++ e6 ++ e7
      pure (errs.isEmpty, errs) : Option (Bool × List String)) = some (ok, errs) := hval
  obtain ⟨c, hc, hval⟩ := Option.bind_eq_some.mp hval
  obtain ⟨e2, h2, hval⟩ := Option.bind_eq_some.mp hval
  obtain ⟨e3, h3, hval⟩ := Option.bind_eq_some.mp hval
  obtain ⟨e4, h4, hval⟩ := Option.bind_eq_some.mp hval
  obtain ⟨tk, h5, hval⟩ := Option.bind_eq_some.mp hval
  obtain ⟨e6, h6, hval⟩ := Option.bind_eq_some.mp hval
  obtain ⟨e7, h7, hval⟩ := Option.bind_eq_some.mp hval
  have hpair := Option.some.inj hval
  rw [Prod.mk.injEq] at hpair
  obtain ⟨hok, herrs⟩ := hpair
  refine ⟨?_, c, e2, e3, e4, tk, e6, e7, hc, h2, h3, h4, h5, h6, h7, herrs.symm⟩
  rw [← hok, ← herrs]
  simp [List.isEmpty_iff]

/-- C7.  If any required top-level field is missing, `validate_item`
aborts all further checks and returns a failing verdict whose violation
list is exactly the missing-field errors. -/
theorem claim_C7 (item : JVal) (msgs : List String)
    (h : rootErrs item = some msgs) (hne : msgs ≠ []) :
    validate_item item = some (false, msgs) :=
  validate_root_abort item msgs h hne

/-- Witness for C7: the empty object is missing all eight fields and is
rejected with exactly the eight missing-key messages. -/
theorem claim_C7_witness :
    validate_item (jobjL []) = some (false,
      ["missing key: id", "missing key: stem", "missing key: table", "missing key: graph",
       "missing key: equation_template", "missing key: tokens", "missing key: answers",
       "missing key: explanation"]) :=
  claim_C7 (jobjL [])
    ["missing key: id", "missing key: stem", "missing key: table", "missing key: graph",
     "missing key: equation_template", "missing key: tokens", "missing key: answers",
     "missing key: explanation"]
    (by rfl) (by decide)

/-- Counterexample to C6 as stated: `crashItem` has every required root
field, yet `validate_item` produces no verdict at all (in Python the call
raises), instead of running every applicable check. -/
theorem claim_C6_counterexample :
    rootErrs crashItem = some [] ∧ validate_item crashItem = none := ⟨rfl, rfl⟩

/-- C6 (amended).  For every item whose required fields are all present
and on which `validate_item` completes without a Python error, the
violation list is the concatenation of all six sections' independently
collected violations (no short-circuiting), and the verdict is true iff
that list is empty. -/
theorem claim_C6_amended (item : JVal) (ok : Bool) (errs : List String)
    (hroot : rootErrs item = some [])
    (hval : validate_item item = some (ok, errs)) :
    (ok = true ↔ errs = [])
    ∧ ∃ c e2 e3 e4 tk e6 e7,
        extractCtx item = some c ∧ contextErrs c = some e2 ∧ tableErrs c item = some e3
        ∧ graphErrs c item = some e4 ∧ tokensErrs c item = some tk
        ∧ answersErrs c tk.2.1 tk.2.2 item = some e6 ∧ explanationErrs c item = some e7
        ∧ errs = e2 ++ e3 ++ e4 ++ tk.1 ++ e6 ++ e7 :=
  validate_decomp item ok errs hroot hval

/-- Witness for C6 (amended) at the concrete valid item. -/
theorem claim_C6_amended_witness :
    ((true = true) ↔ (([] : List String) = []))
    ∧ ∃ c e2 e3 e4 tk e6 e7,
        extractCtx goodItem = some c ∧ contextErrs c = some e2 ∧ tableErrs c goodItem = some e3
        ∧ graphErrs c goodItem = some e4 ∧ tokensErrs c goodItem = some tk
        ∧ answersErrs c tk.2.1 tk.2.2 goodItem = some e6 ∧ explanationErrs c goodItem = some e7
        ∧ ([] : List String) = e2 ++ e3 ++ e4 ++ tk.1 ++ e6 ++ e7 :=
  claim_C6_amended goodItem true [] (by rfl) (by rfl)

theorem isPosInt_iff (v : JVal) : isPosInt v = true ↔ ∃ n : Int, v = .jint n ∧ 0 < n := by
  cases v <;> simp [isPosInt]

theorem isIntBetween_iff (v : JVal) (lo hi : Int) :
    isIntBetween v lo hi = true ↔ ∃ n : Int, v = .jint n ∧ lo ≤ n ∧ n ≤ hi := by
  cases v <;> simp [isIntBetween]

theorem pyEq_int_iff (a b : Int) : pyEq (.jint a) (.jint b) = true ↔ a = b := by
  simp [pyEq, pyCanon]

theorem pyEq_jint_of_posInt (v : JVal) (m : Int) (hv : isPosInt v = true) :
    pyEq v (.jint m) = true ↔ v = .jint m := by
  obtain ⟨n, rfl, hn⟩ := (isPosInt_iff v).mp hv
  simp [pyEq, pyCanon]

theorem bind_step {α β : Type} {x : Option α} {a : α} {f : α → Option β} {r : Option β}
    (hx : x = some a) (hf : f a = r) : (x >>= f) = r := by
  rw [hx]
  exact hf

/-- The table section evaluated on a bare table item: the six checks in
order, with the short-circuited product for the total check. -/
theorem tableErrs_mk (m : Int) (xu xul : String) (upv : JVal) (upd : String)
    (av : JVal) (ad : String) (tv : JVal) (td : String) :
    tableErrs (mkCtx m xu xul) (mkTableItem upv upd av ad tv td) = (do
      let c5 ← (if isPosInt tv then (pyMul (.jint m) av).map (fun pr => pyEq tv pr)
        else pure false : Option Bool)
      pure (require (isPosInt upv && pyEq upv (.jint m)) "unit_price.value must equal slope_m"
        ++ require (strStarts (pyStrip upd) "$" && strIn ("/" ++ xul) (pyStrip upd)
            && strIn (pyStr (.jint m)) (pyStrip upd))
          ("unit_price.display must include " ++ q "$" ++ ", slope_m, and "
            ++ q "/\x7bx_unit_label\x7d")
        ++ require (isPosInt av && isIntBetween av 1 10) "amount.value must be 1..10"
        ++ require (strEnds (pyStrip ad) (" " ++ xu) && strIn (pyStr av) (pyStrip ad))
          ("amount.display must be " ++ q "<amount> \x7bx_unit\x7d")
        ++ require c5 "total.value must equal slope_m * amount.value"
        ++ require (strStarts (pyStrip td) "$" && strIn (pyStr tv) (pyStrip td))
          ("total.display must start with " ++ q "$" ++ " and include total value"))) := by
  unfold tableErrs
  apply bind_step rfl
  apply bind_step rfl
  apply bind_step (a := upv) rfl
  apply bind_step (a := pyStrip upd) rfl
  apply bind_step rfl
  apply bind_step (a := av) rfl
  apply bind_step (a := pyStrip ad) rfl
  apply bind_step rfl
  apply bind_step (a := tv) rfl
  apply bind_step (a := pyStrip td) rfl
  simp only [mkCtx]
  split <;> rfl

/-- C5 (amended).  The table section reports no violations iff the table
satisfies the arithmetic and display contract, with the unit-price
display required to *start with* the currency marker (the code checks
`startswith`, not mere containment). -/
theorem claim_C5_amended (m : Int) (xu xul : String) (upv : JVal) (upd : String)
    (av : JVal) (ad : String) (tv : JVal) (td : String)
    (h1 : 1 ≤ m) (h2 : m ≤ 20) :
    tableErrs (mkCtx m xu xul) (mkTableItem upv upd av ad tv td) = some []
      ↔ c5Amended m xu xul upv upd av ad tv td := by
  rw [tableErrs_mk]
  constructor
  · intro h
    obtain ⟨c5, hc5, hpure⟩ := Option.bind_eq_some.mp h
    have hnil := Option.some.inj hpure
    simp only [List.append_eq_nil, require_eq_nil, Bool.and_eq_true] at hnil
    obtain ⟨⟨⟨⟨⟨⟨hup1, hup2⟩, hd2⟩, ham⟩, hd4⟩, hc5t⟩, hd6⟩ := hnil
    have hupv : upv = .jint m := (pyEq_jint_of_posInt upv m hup1).mp hup2
    obtain ⟨a, hav, ha1, ha2⟩ := (isIntBetween_iff av 1 10).mp ham.2
    have hposTv : isPosInt tv = true := by
      by_contra hne
      rw [if_neg (by simpa using hne)] at hc5
      have := Option.some.inj hc5
      rw [← this] at hc5t
      exact Bool.false_ne_true hc5t
    rw [if_pos hposTv] at hc5
    obtain ⟨pr, hmul, hpr⟩ := Option.map_eq_some'.mp hc5
    rw [hav] at hmul
    have hpr' : pr = .jint (m * a) := by
      have : pyMul (.jint m) (.jint a) = some (.jint (m * a)) := rfl
      rw [this] at hmul
      exact (Option.some.inj hmul).symm
    rw [hpr', hc5t] at hpr
    have htv : tv = .jint (m * a) := (pyEq_jint_of_posInt tv (m * a) hposTv).mp hpr
    refine ⟨hupv, hd2.1.1, hd2.1.2, by simpa using hd2.2, a, hav, ha1, ha2, hd4.1, ?_, htv, hd6.1, ?_⟩
    · rw [hav] at hd4
      simpa using hd4.2
    · rw [htv] at hd6
      simpa using hd6.2
  · rintro ⟨hupv, hs1, hs2, hs3, a, hav, ha1, ha2, he1, he2, htv, ht1, ht2⟩
    subst hupv; subst hav; subst htv
    have hposM : isPosInt (JVal.jint m) = true := by simp [isPosInt]; omega
    have hposMA : isPosInt (JVal.jint (m * a)) = true := by
      simp [isPosInt]
      exact mul_pos (by omega) (by omega)
    rw [if_pos hposMA]
    have hmul : pyMul (.jint m) (.jint a) = some (.jint (m * a)) := rfl
    rw [hmul]
    simp only [Option.map_some', Option.some_bind]
    simp [require_eq_nil, hposM, hs1, hs2, hs3, he1, he2, ht1, ht2,
      pyEq_int_iff, isPosInt, isIntBetween, pyStr]
    omega

/-- Witness for C5 (amended) at concrete scenario 1: slope 8, amount 2,
total 16 with display `$16.00`. -/
theorem claim_C5_amended_witness :
    tableErrs (mkCtx 8 "kg" "kg")
        (mkTableItem (.jint 8) "$8.00/kg" (.jint 2) "2 kg" (.jint 16) "$16.00") = some []
      ↔ c5Amended 8 "kg" "kg" (.jint 8) "$8.00/kg" (.jint 2) "2 kg" (.jint 16) "$16.00" :=
  claim_C5_amended 8 "kg" "kg" (.jint 8) "$8.00/kg" (.jint 2) "2 kg" (.jint 16) "$16.00"
    (by decide) (by decide)

/-- Counterexample to C5 as stated: a unit-price display `a$8.00/kg`
satisfies every condition of the claim (it *contains* the currency
marker) but the validator flags it, because the code requires the display
to start with `$`. -/
theorem claim_C5_counterexample :
    ¬(tableErrs (mkCtx 8 "kg" "kg")
        (mkTableItem (.jint 8) "a$8.00/kg" (.jint 2) "2 kg" (.jint 16) "$16.00") = some []
      ↔ c5Stated 8 "kg" "kg" (.jint 8) "a$8.00/kg" (.jint 2) "2 kg" (.jint 16) "$16.00") := by
  intro h
  have hs : c5Stated 8 "kg" "kg" (.jint 8) "a$8.00/kg" (.jint 2) "2 kg" (.jint 16) "$16.00" :=
    ⟨rfl, by decide, by decide, by decide, 2, rfl, by decide, by decide, by decide,
      by decide, by norm_num, by decide, by decide⟩
  exact absurd (h.mpr hs) (by decide)

theorem keyEq_iff (a b : String × JVal × Int) :
    keyEq a b = true ↔ keyCanon a = keyCanon b := by
  simp only [keyEq, keyCanon, pyEq, Bool.and_eq_true, beq_iff_eq, decide_eq_true_eq,
    Prod.mk.injEq]
  tauto

/-- `dedupe_items`' loop agrees with the first-occurrence specification
whenever the seen-key set matches the keys of the processed prefix. -/
theorem dedupeGo_spec (rest : List JVal) : ∀ (pre : List JVal) (seen : List (String × JVal × Int)),
    (∀ kc, (∃ k2 ∈ seen, keyCanon k2 = kc)
      ↔ (∃ x ∈ pre, ∃ kx, keyOf x = some kx ∧ keyCanon kx = kc)) →
    dedupeGo rest seen = dedupeSpecGo pre rest := by
  induction rest with
  | nil => intro pre seen _; rfl
  | cons it rest ih =>
    intro pre seen hinv
    cases hk : keyOf it with
    | none =>
      have hinv2 : ∀ kc, (∃ k2 ∈ seen, keyCanon k2 = kc)
          ↔ (∃ x ∈ pre ++ [it], ∃ kx, keyOf x = some kx ∧ keyCanon kx = kc) := by
        intro kc
        rw [hinv kc]
        constructor
        · rintro ⟨x, hx, r⟩
          exact ⟨x, List.mem_append_left _ hx, r⟩
        · rintro ⟨x, hx, kx, hkx, r⟩
          rcases List.mem_append.mp hx with hx | hx
          · exact ⟨x, hx, kx, hkx, r⟩
          · rw [List.mem_singleton.mp hx, hk] at hkx
            cases hkx
      simp only [dedupeGo, dedupeSpecGo, hk, Option.isSome_none, Bool.false_and,
        Bool.false_eq_true, if_false]
      rw [ih (pre ++ [it]) seen hinv2]
    | some key =>
      have hcond : ((keyOf it).isSome && pre.any (fun x => sameKey it x))
          = (seen.any fun k => keyEq key k) := by
        rw [hk]
        simp only [Option.isSome_some, Bool.true_and]
        rw [Bool.eq_iff_iff]
        simp only [List.any_eq_true]
        constructor
        · rintro ⟨x, hx, hs⟩
          simp only [sameKey, hk] at hs
          cases hkx : keyOf x with
          | none => rw [hkx] at hs; cases hs
          | some kx =>
            rw [hkx] at hs
            have hc := (keyEq_iff key kx).mp hs
            obtain ⟨k2, hk2, hck⟩ := (hinv (keyCanon key)).mpr ⟨x, hx, kx, hkx, hc.symm⟩
            exact ⟨k2, hk2, (keyEq_iff key k2).mpr hck.symm⟩
        · rintro ⟨k2, hk2, he⟩
          have hc := (keyEq_iff key k2).mp he
          obtain ⟨x, hx, kx, hkx, hck⟩ := (hinv (keyCanon key)).mp ⟨k2, hk2, hc.symm⟩
          refine ⟨x, hx, ?_⟩
          simp only [sameKey, hk, hkx]
          exact (keyEq_iff key kx).mpr hck.symm
      cases hb : (seen.any fun k => keyEq key k) with
      | false =>
        have hinv2 : ∀ kc, (∃ k2 ∈ key :: seen, keyCanon k2 = kc)
            ↔ (∃ x ∈ pre ++ [it], ∃ kx, keyOf x = some kx ∧ keyCanon kx = kc) := by
          intro kc
          constructor
          · rintro ⟨k2, hk2, hkc⟩
            rcases List.mem_cons.mp hk2 with h12 | hk2
            · rw [h12] at hkc
              exact ⟨it, List.mem_append_right _ (List.mem_singleton.mpr rfl), key, hk, hkc⟩
            · obtain ⟨x, hx, r⟩ := (hinv kc).mp ⟨k2, hk2, hkc⟩
              exact ⟨x, List.mem_append_left _ hx, r⟩
          · rintro ⟨x, hx, kx, hkx, hkc⟩
            rcases List.mem_append.mp hx with hx | hx
            · obtain ⟨k2, hk2, r⟩ := (hinv kc).mpr ⟨x, hx, kx, hkx, hkc⟩
              exact ⟨k2, List.mem_cons_of_mem _ hk2, r⟩
            · rw [List.mem_singleton.mp hx, hk] at hkx
              have hkk := Option.some.inj hkx
              rw [← hkk] at hkc
              exact ⟨key, List.mem_cons_self _ _, hkc⟩
        rw [hb, hk] at hcond
        simp only [dedupeGo, dedupeSpecGo, hk, hb, Bool.false_eq_true, if_false]
        rw [ih (pre ++ [it]) (key :: seen) hinv2, hcond]
        simp
      | true =>
        have hseen : ∃ k2 ∈ seen, keyCanon k2 = keyCanon key := by
          obtain ⟨k2, hk2, he⟩ := List.any_eq_true.mp hb
          exact ⟨k2, hk2, ((keyEq_iff key k2).mp he).symm⟩
        have hinv2 : ∀ kc, (∃ k2 ∈ seen, keyCanon k2 = kc)
            ↔ (∃ x ∈ pre ++ [it], ∃ kx, keyOf x = some kx ∧ keyCanon kx = kc) := by
          intro kc
          constructor
          · rintro ⟨k2, hk2, hkc⟩
            obtain ⟨x, hx, r⟩ := (hinv kc).mp ⟨k2, hk2, hkc⟩
            exact ⟨x, List.mem_append_left _ hx, r⟩
          · rintro ⟨x, hx, kx, hkx, hkc⟩
            rcases List.mem_append.mp hx with hx | hx
            · exact (hinv kc).mpr ⟨x, hx, kx, hkx, hkc⟩
            · rw [List.mem_singleton.mp hx, hk] at hkx
              obtain rfl := Option.some.inj hkx
              obtain ⟨k2, hk2, hck⟩ := hseen
              exact ⟨k2, hk2, hck.trans hkc⟩
        rw [hb, hk] at hcond
        simp only [dedupeGo, dedupeSpecGo, hk, hb, if_true]
        rw [ih (pre ++ [it]) seen hinv2, hcond]
        simp

/-- C8.  `dedupe_items` keeps the first item in batch order for each
canonical key, drops and counts every later item with the same key, and
keeps unconditionally every item whose key cannot be extracted; in
particular the `Bananas`/`bananas` pair of scenario 2 loses its second
element before validation. -/
theorem claim_C8 :
    (∀ items : List JVal, dedupe_items items = dedupeFirstOccurrence items)
    ∧ dedupe_items [bananaA, bananaB] = ([bananaA], 1) := by
  constructor
  · intro items
    unfold dedupe_items dedupeFirstOccurrence
    apply dedupeGo_spec
    intro kc
    simp
  · decide

/-- A passing verdict means the root check succeeded with no missing
fields and the violation list is empty. -/
theorem validate_pass (it : JVal) (errs : List String)
    (h : validate_item it = some (true, errs)) :
    rootErrs it = some [] ∧ errs = [] := by
  have h0 := h
  unfold validate_item at h
  obtain ⟨rmsgs, hr, h⟩ := Option.bind_eq_some.mp h
  cases rmsgs with
  | cons a l =>
    rw [if_neg (by simp : ¬((a :: l).isEmpty = true))] at h
    have := Option.some.inj h
    rw [Prod.mk.injEq] at this
    exact absurd this.1 (by simp)
  | nil =>
    refine ⟨hr, ?_⟩
    exact ((validate_decomp it true errs hr h0).1).mp rfl

theorem pyNormGet_inv (obj : JVal) (k : String) (s : String)
    (h : pyNormGet obj k = some s) (hs : s ≠ "") :
    ∃ str, pyGetItem obj k = some (.jstr str) ∧ pyStrip str = s := by
  unfold pyNormGet at h
  obtain ⟨v, hv, hn⟩ := Option.bind_eq_some.mp h
  cases obj with
  | jobj kvs =>
    simp only [pyGet, Option.some.injEq] at hv
    cases hl : objLookup kvs.toList k with
    | none =>
      rw [hl] at hv
      simp only [Option.getD_none] at hv
      rw [← hv] at hn
      simp only [pyNorm, Option.some.injEq] at hn
      exact absurd (hn ▸ rfl : s = "") hs
    | some w =>
      rw [hl] at hv
      simp only [Option.getD_some] at hv
      rw [← hv] at hn
      cases w with
      | jstr str =>
        simp only [pyNorm, Option.some.injEq] at hn
        exact ⟨str, by simp [pyGetItem, hl], hn⟩
      | jnull => simp only [pyNorm, Option.some.injEq] at hn; exact absurd hn.symm hs
      | jbool b =>
        cases b with
        | false => simp only [pyNorm, Option.some.injEq] at hn; exact absurd hn.symm hs
        | true => simp [pyNorm] at hn
      | jint n =>
        simp only [pyNorm] at hn
        by_cases hz : n = 0
        · rw [if_pos (by simpa using hz)] at hn
          exact absurd (Option.some.inj hn).symm hs
        · rw [if_neg (by simpa using hz)] at hn
          cases hn
      | jarr xs =>
        simp only [pyNorm] at hn
        by_cases hz : xs.toList.isEmpty = true
        · rw [if_pos hz] at hn
          exact absurd (Option.some.inj hn).symm hs
        · rw [if_neg hz] at hn
          cases hn
      | jobj kvs2 =>
        simp only [pyNorm] at hn
        by_cases hz : kvs2.toList.isEmpty = true
        · rw [if_pos hz] at hn
          exact absurd (Option.some.inj hn).symm hs
        · rw [if_neg hz] at hn
          cases hn
  | jnull => simp [pyGet] at hv
  | jbool b => simp [pyGet] at hv
  | jint n => simp [pyGet] at hv
  | jstr s2 => simp [pyGet] at hv
  | jarr xs => simp [pyGet] at hv

theorem pyGet_present_inv (obj : JVal) (k : String) (d v : JVal)
    (h : pyGet obj k d = some v) (hneq : v ≠ d) : pyGetItem obj k = some v := by
  cases obj with
  | jobj kvs =>
    simp only [pyGet, Option.some.injEq] at h
    cases hl : objLookup kvs.toList k with
    | none =>
      rw [hl] at h
      simp only [Option.getD_none] at h
      exact absurd h.symm hneq
    | some w =>
      rw [hl] at h
      simp only [Option.getD_some] at h
      rw [h] at hl
      simpa [pyGetItem] using hl
  | jnull => simp [pyGet] at h
  | jbool b => simp [pyGet] at h
  | jint n => simp [pyGet] at h
  | jstr s2 => simp [pyGet] at h
  | jarr xs => simp [pyGet] at h

/-- Items whose keys have equal canonical images never both carry a key
in the output of the de-dup loop, and every keyed output item has a key
unseen on entry. -/
theorem dedupeGo_pairwise (rest : List JVal) : ∀ seen : List (String × JVal × Int),
    ((dedupeGo rest seen).1.Pairwise
      (fun a b => ∀ ka kb, keyOf a = some ka → keyOf b = some kb → keyCanon ka ≠ keyCanon kb))
    ∧ (∀ it ∈ (dedupeGo rest seen).1, ∀ k, keyOf it = some k →
        ∀ k2 ∈ seen, keyCanon k2 ≠ keyCanon k) := by
  induction rest with
  | nil =>
    intro seen
    exact ⟨List.Pairwise.nil, by intro it hit; cases hit⟩
  | cons it rest ih =>
    intro seen
    cases hk : keyOf it with
    | none =>
      simp only [dedupeGo, hk]
      obtain ⟨hp, hs⟩ := ih seen
      constructor
      · refine List.Pairwise.cons ?_ hp
        intro b hb ka kb hka hkb
        rw [hk] at hka
        cases hka
      · intro x hx k hkx k2 hk2
        rcases List.mem_cons.mp hx with rfl | hx
        · rw [hk] at hkx; cases hkx
        · exact hs x hx k hkx k2 hk2
    | some key =>
      cases hb : seen.any (fun k2 => keyEq key k2) with
      | true =>
        simp only [dedupeGo, hk, hb, if_true]
        exact ih seen
      | false =>
        simp only [dedupeGo, hk, hb, Bool.false_eq_true, if_false]
        obtain ⟨hp, hs⟩ := ih (key :: seen)
        constructor
        · refine List.Pairwise.cons ?_ hp
          intro b hb2 ka kb hka hkb
          rw [hk] at hka
          have hka' := Option.some.inj hka
          rw [← hka']
          exact hs b hb2 kb hkb key (List.mem_cons_self _ _)
        · intro x hx k hkx k2 hk2
          rcases List.mem_cons.mp hx with rfl | hx
          · rw [hk] at hkx
            have hk' := Option.some.inj hkx
            rw [← hk']
            intro hcontra
            have : (seen.any fun k2 => keyEq key k2) = true :=
              List.any_eq_true.mpr ⟨k2, hk2, (keyEq_iff key k2).mpr hcontra.symm⟩
            rw [hb] at this
            cases this
          · exact hs x hx k hkx k2 (List.mem_cons_of_mem _ hk2)

/-- The de-dup loop is the identity (dropping nothing) on a list of items
that all carry keys, pairwise distinct and disjoint from the seen set. -/
theorem dedupeGo_id (l : List JVal) : ∀ seen : List (String × JVal × Int),
    (∀ it ∈ l, ∃ k, keyOf it = some k) →
    l.Pairwise
      (fun a b => ∀ ka kb, keyOf a = some ka → keyOf b = some kb → keyCanon ka ≠ keyCanon kb) →
    (∀ it ∈ l, ∀ k, keyOf it = some k → ∀ k2 ∈ seen, keyCanon k2 ≠ keyCanon k) →
    dedupeGo l seen = (l, 0) := by
  induction l with
  | nil => intro seen _ _ _; rfl
  | cons it rest ih =>
    intro seen hkeys hpw hseen
    obtain ⟨k, hk⟩ := hkeys it (List.mem_cons_self _ _)
    have hb : (seen.any fun k2 => keyEq k k2) = false := by
      rw [Bool.eq_false_iff]
      intro htrue
      obtain ⟨k2, hk2, he⟩ := List.any_eq_true.mp htrue
      exact hseen it (List.mem_cons_self _ _) k hk k2 hk2 ((keyEq_iff k k2).mp he).symm
    have hseen2 : ∀ x ∈ rest, ∀ kx, keyOf x = some kx →
        ∀ k2 ∈ k :: seen, keyCanon k2 ≠ keyCanon kx := by
      intro x hx kx hkx k2 hk2
      rcases List.mem_cons.mp hk2 with h12 | hk2
      · rw [h12]
        exact (List.pairwise_cons.mp hpw).1 x hx k kx hk hkx
      · exact hseen x (List.mem_cons_of_mem _ hx) kx hkx k2 hk2
    simp only [dedupeGo, hk, hb, Bool.false_eq_true, if_false]
    rw [ih (k :: seen) (fun x hx => hkeys x (List.mem_cons_of_mem _ hx))
      (List.pairwise_cons.mp hpw).2 hseen2]

/-- Every item that passes validation has an extractable de-dup key:
the passing context checks force a present, non-empty string `item_name`,
a present string `x_unit` (one of the three mode units), and a present
integer `slope_m`. -/
theorem pass_keyOf (it : JVal) (h : validate_item it = some (true, [])) :
    ∃ k, keyOf it = some k := by
  have hroot := (validate_pass it [] h).1
  obtain ⟨hiff, c, e2, e3, e4, tk, e6, e7, hc, h2, h3, h4, h5, h6, h7, herrs⟩ :=
    validate_decomp it true [] hroot h
  have he2 : e2 = [] := by
    have hx := herrs.symm
    simp only [List.append_eq_nil] at hx
    exact hx.1.1.1.1.1
  rw [he2] at h2
  unfold contextErrs at h2
  obtain ⟨pt, hpt, h2⟩ := Option.bind_eq_some.mp h2
  have hcat := Option.some.inj h2
  simp only [List.append_eq_nil, require_eq_nil, Bool.and_eq_true, beq_iff_eq,
    Bool.not_eq_eq_eq_not, Bool.not_false, decide_eq_true_eq] at hcat
  obtain ⟨⟨⟨⟨⟨⟨⟨⟨⟨⟨hyv, hyn⟩, hyu⟩, hxv⟩, hmode⟩, hnm⟩, hsm⟩, hp1⟩, hp2⟩, hp3⟩, hp4⟩ := hcat
  simp only [List.map_cons, MODES, List.map_nil, List.contains_cons,
    List.contains_nil, Bool.or_false, Bool.or_eq_true, beq_iff_eq] at hxv
  have hxune : c.x_unit ≠ "" := by
    rcases hxv with hx | hx | hx <;>
      (rw [hx] at hmode
       simp [modeOf, MODES, require_eq_nil, List.append_eq_nil] at hmode)
    · rw [hmode.2.1]; decide
    · rw [hmode.2.1]; decide
    · rw [hmode.2.1]; decide
  obtain ⟨mInt, hsmv, hm1, hm20⟩ := (isIntBetween_iff c.slope_m 1 20).mp hsm
  have hnmne : c.item_nm ≠ "" := by
    intro hemp
    rw [hemp] at hnm
    simp at hnm
  unfold extractCtx at hc
  obtain ⟨stemv, hstem, hc⟩ := Option.bind_eq_some.mp hc
  obtain ⟨ctxv, hctx, hc⟩ := Option.bind_eq_some.mp hc
  obtain ⟨yv, hyv2, hc⟩ := Option.bind_eq_some.mp hc
  obtain ⟨ynm, hynm2, hc⟩ := Option.bind_eq_some.mp hc
  obtain ⟨yu, hyu2, hc⟩ := Option.bind_eq_some.mp hc
  obtain ⟨xv, hxv2, hc⟩ := Option.bind_eq_some.mp hc
  obtain ⟨xn, hxn2, hc⟩ := Option.bind_eq_some.mp hc
  obtain ⟨xu, hxu2, hc⟩ := Option.bind_eq_some.mp hc
  obtain ⟨xl, hxl2, hc⟩ := Option.bind_eq_some.mp hc
  obtain ⟨inm, hinm2, hc⟩ := Option.bind_eq_some.mp hc
  obtain ⟨smv, hsmv2, hc⟩ := Option.bind_eq_some.mp hc
  have hcrec := Option.some.inj hc
  subst hcrec
  have hnm2 : inm ≠ "" := hnmne
  have hxu_ne2 : xu ≠ "" := hxune
  have hsmint : smv = .jint mInt := hsmv
  obtain ⟨nstr, hnm_get, hnm_strip⟩ := pyNormGet_inv ctxv "item_name" inm hinm2 hnm2
  obtain ⟨ustr, hxu_get, hxu_strip⟩ := pyNormGet_inv ctxv "x_unit" xu hxu2 hxu_ne2
  have hctx_get : pyGetItem stemv "context" = some ctxv := by
    apply pyGet_present_inv stemv "context" (jobjL []) ctxv hctx
    intro heq
    rw [heq] at hinm2
    have h0 : pyNormGet (jobjL []) "item_name" = some "" := rfl
    rw [h0] at hinm2
    exact hnm2 (Option.some.inj hinm2).symm
  have hsm_get : pyGetItem ctxv "slope_m" = some (.jint mInt) := by
    apply pyGet_present_inv ctxv "slope_m" .jnull (.jint mInt)
    · rw [← hsmint]; exact hsmv2
    · simp
  refine ⟨(pyStrip (pyLower nstr), .jstr ustr, mInt), ?_⟩
  unfold keyOf
  apply bind_step hstem
  apply bind_step hctx_get
  apply bind_step hnm_get
  apply bind_step (a := pyStrip (pyLower nstr)) rfl
  apply bind_step hxu_get
  apply bind_step hsm_get
  apply bind_step (a := mInt) rfl
  rfl

end PriceVal
